import Mathlib

/-!
# Verification of the harmonic interpolator core

Shallow embedding of the damped-harmonic-oscillator easing curve from
`src/main.c` over the real numbers, together with proofs of the spec's
testable properties.

The embedded functions keep the C names:
* `calculate_interpolation_raw` — the curve `1 - exp(-γ t) cos(ω t)`;
* `calculate_interpolation`     — the same, taking an `InterpolatorParams`;
* `calculate_omega`             — closed-form frequency;
* `calculate_turning_time`      — closed-form first-extremum time;
* `calculate_gamma`             — seed + sign + hill-climb damping search;
* `calculate_params`            — composition of the above.

The C damping search is a `while (true)` loop with no iteration cap, so it
is embedded fuel-indexed: `gamma_loop fuel …` returns `none` when `fuel`
iterations were not enough to reach the loop's `break`, and `some gamma`
when the loop exited normally.  Termination of the C loop at given inputs
is the statement `∃ fuel g, … = some g`.
-/

open Real

/-- `struct interpolator_settings` from `src/main.c`. -/
structure InterpolatorSettings where
  overshoot : ℝ
  rest_position_runs : ℝ

/-- `struct interpolator_params` from `src/main.c`. -/
structure InterpolatorParams where
  omega : ℝ
  gamma : ℝ

/-- `calculate_interpolation_raw` from `src/main.c`:
`1 - exp(-gamma * time) * cos(omega * time)`. -/
noncomputable def calculate_interpolation_raw (omega gamma time : ℝ) : ℝ :=
  1 - Real.exp (-gamma * time) * Real.cos (omega * time)

/-- `calculate_interpolation` from `src/main.c`. -/
noncomputable def calculate_interpolation (params : InterpolatorParams) (time : ℝ) : ℝ :=
  calculate_interpolation_raw params.omega params.gamma time

/-- `calculate_omega` from `src/main.c`:
`2 * M_PI * (rest_position_runs / 2 + 0.75)`. -/
noncomputable def calculate_omega (settings : InterpolatorSettings) : ℝ :=
  2 * π * (settings.rest_position_runs / 2 + 0.75)

/-- `calculate_turning_time` from `src/main.c`:
`2 * atan(omega/gamma - sqrt(gamma² + omega²)/gamma) / omega + M_PI / omega`. -/
noncomputable def calculate_turning_time (omega gamma : ℝ) : ℝ :=
  2 * Real.arctan (omega / gamma - Real.sqrt (gamma ^ 2 + omega ^ 2) / gamma) / omega
    + π / omega

/-- The quantity `interpolation` recomputed by `calculate_gamma` for a candidate
gamma: the curve value at the turning time, minus 1 (the achieved overshoot). -/
noncomputable def achieved_overshoot (omega gamma : ℝ) : ℝ :=
  calculate_interpolation_raw omega gamma (calculate_turning_time omega gamma) - 1

/-- The quantity `deviation` computed by `calculate_gamma` for a candidate gamma:
`fabs(settings.overshoot - interpolation)`. -/
noncomputable def deviation_at (overshoot omega gamma : ℝ) : ℝ :=
  |overshoot - achieved_overshoot omega gamma|

/-- The seed `gamma = -log(settings.overshoot) / time` with `time = M_PI / omega`
from `calculate_gamma` in `src/main.c`. -/
noncomputable def seed_gamma (overshoot omega : ℝ) : ℝ :=
  -Real.log overshoot / (π / omega)

/-- The variable `sign` of `calculate_gamma` in `src/main.c`:
`+1` when the seed's achieved overshoot exceeds the target, `-1` otherwise. -/
noncomputable def search_sign (overshoot omega : ℝ) : ℝ :=
  if achieved_overshoot omega (seed_gamma overshoot omega) - overshoot > 0 then 1 else -1

/-- The `while (true)` loop of `calculate_gamma` in `src/main.c`, fuel-indexed.
State `(gamma, deviation)` is the pair of C locals; each iteration probes
`gamma + sign * 0.01`, accepts it while the deviation strictly improves and
`break`s (returning the last accepted gamma) otherwise. -/
noncomputable def gamma_loop (overshoot omega sign : ℝ) :
    ℕ → ℝ → ℝ → Option ℝ
  | 0, _, _ => none
  | fuel + 1, gamma, deviation =>
    let tuned_gamma := gamma + sign * 0.01
    let tuned_deviation := deviation_at overshoot omega tuned_gamma
    if tuned_deviation < deviation then
      gamma_loop overshoot omega sign fuel tuned_gamma tuned_deviation
    else some gamma

/-- The list of gamma values at which the loop of `calculate_gamma` calls
`calculate_turning_time` (each iteration calls it exactly once, at
`tuned_gamma`, before deciding whether to accept). -/
noncomputable def gamma_loop_probes (overshoot omega sign : ℝ) :
    ℕ → ℝ → ℝ → List ℝ
  | 0, _, _ => []
  | fuel + 1, gamma, deviation =>
    let tuned_gamma := gamma + sign * 0.01
    let tuned_deviation := deviation_at overshoot omega tuned_gamma
    tuned_gamma ::
      (if tuned_deviation < deviation then
        gamma_loop_probes overshoot omega sign fuel tuned_gamma tuned_deviation
      else [])

/-- `calculate_gamma` from `src/main.c`, fuel-indexed. -/
noncomputable def calculate_gamma (settings : InterpolatorSettings) (omega : ℝ)
    (fuel : ℕ) : Option ℝ :=
  gamma_loop settings.overshoot omega (search_sign settings.overshoot omega) fuel
    (seed_gamma settings.overshoot omega)
    (deviation_at settings.overshoot omega (seed_gamma settings.overshoot omega))

/-- `calculate_params` from `src/main.c`, fuel-indexed through `calculate_gamma`. -/
noncomputable def calculate_params (settings : InterpolatorSettings) (fuel : ℕ) :
    Option InterpolatorParams :=
  let omega := calculate_omega settings
  (calculate_gamma settings omega fuel).map fun gamma => ⟨omega, gamma⟩

/-- C5: `calculate_interpolation_raw` returns exactly `1 − exp(−gamma·t)·cos(omega·t)`
for every real `omega`, `gamma` and `t`; being a plain function of its three real
arguments it is pure, side-effect free and defined for every real `t`. -/
theorem calculate_interpolation_raw_formula (omega gamma t : ℝ) :
    calculate_interpolation_raw omega gamma t
      = 1 - Real.exp (-(gamma * t)) * Real.cos (omega * t) := by
  simp [calculate_interpolation_raw, neg_mul]

/-- C6: the curve vanishes at time 0, exactly, for every `omega` and `gamma`. -/
theorem calculate_interpolation_raw_zero (omega gamma : ℝ) :
    calculate_interpolation_raw omega gamma 0 = 0 := by
  simp [calculate_interpolation_raw]

/-- C7: `calculate_omega` returns `2π·(restPositionRuns/2 + 0.75)` for every
settings value, and in particular `1.5π` when `restPositionRuns = 0`. -/
theorem calculate_omega_formula (s : InterpolatorSettings) :
    calculate_omega s = 2 * π * (s.rest_position_runs / 2 + 0.75)
      ∧ (s.rest_position_runs = 0 → calculate_omega s = 1.5 * π) := by
  constructor
  · rfl
  · intro h
    simp only [calculate_omega, h]
    ring

/-- C7 witness. -/
theorem calculate_omega_formula_witness :
    calculate_omega ⟨0.2, 0⟩ = 2 * π * ((0 : ℝ) / 2 + 0.75)
      ∧ calculate_omega ⟨0.2, 0⟩ = 1.5 * π := by
  have h := calculate_omega_formula ⟨0.2, 0⟩
  exact ⟨h.1, h.2 rfl⟩

/-- C10: for every `omega`, every `gamma ≥ 0` and every `t ≥ 0` the curve value
lies in the closed interval `[0, 2]`. -/
theorem calculate_interpolation_raw_mem_Icc (omega gamma t : ℝ)
    (hgamma : 0 ≤ gamma) (ht : 0 ≤ t) :
    calculate_interpolation_raw omega gamma t ∈ Set.Icc (0 : ℝ) 2 := by
  have hexp_pos : 0 < Real.exp (-gamma * t) := Real.exp_pos _
  have hexp_le : Real.exp (-gamma * t) ≤ 1 := by
    rw [Real.exp_le_one_iff]
    have : 0 ≤ gamma * t := mul_nonneg hgamma ht
    linarith [neg_mul gamma t]
  have hcos_le : Real.cos (omega * t) ≤ 1 := Real.cos_le_one _
  have hcos_ge : -1 ≤ Real.cos (omega * t) := Real.neg_one_le_cos _
  constructor
  · unfold calculate_interpolation_raw
    nlinarith
  · unfold calculate_interpolation_raw
    nlinarith

/-- C10 witness. -/
theorem calculate_interpolation_raw_mem_Icc_witness :
    (0 : ℝ) ≤ 1 ∧ calculate_interpolation_raw 1 1 1 ∈ Set.Icc (0 : ℝ) 2 :=
  ⟨by norm_num, calculate_interpolation_raw_mem_Icc 1 1 1 (by norm_num) (by norm_num)⟩

/-! ## Closed-form analysis of the turning time and achieved overshoot -/

/-- Half-angle identity behind `calculate_turning_time`: for positive `omega`
and `gamma`, `2·atan((√(γ²+ω²) − ω)/γ) = atan(γ/ω)`. -/
lemma two_arctan_sqrt_sub (omega gamma : ℝ) (homega : 0 < omega) (hgamma : 0 < gamma) :
    2 * Real.arctan ((Real.sqrt (gamma ^ 2 + omega ^ 2) - omega) / gamma)
      = Real.arctan (gamma / omega) := by
  set s := Real.sqrt (gamma ^ 2 + omega ^ 2) with hs
  have hs2 : s ^ 2 = gamma ^ 2 + omega ^ 2 := Real.sq_sqrt (by positivity)
  have hs_pos : 0 < s := Real.sqrt_pos.mpr (by positivity)
  have hos : omega < s := by
    have h2 : omega ^ 2 < s ^ 2 := by nlinarith
    exact lt_of_pow_lt_pow_left₀ 2 hs_pos.le h2
  have hslt : s < gamma + omega := by
    have h2 : s ^ 2 < (gamma + omega) ^ 2 := by nlinarith
    exact lt_of_pow_lt_pow_left₀ 2 (by positivity) h2
  set x := (s - omega) / gamma with hx
  have hx_pos : 0 < x := div_pos (by linarith) hgamma
  have hx_lt : x < 1 := (div_lt_one hgamma).mpr (by linarith)
  set A := Real.arctan x with hA
  have hA_pos : 0 < A := by
    have := Real.arctan_strictMono hx_pos
    rwa [Real.arctan_zero] at this
  have hA_lt : A < π / 4 := by
    have := Real.arctan_strictMono hx_lt
    rwa [Real.arctan_one] at this
  have hden : (0 : ℝ) < 1 - x ^ 2 := by nlinarith
  have htan2 : Real.tan (2 * A) = gamma / omega := by
    rw [Real.tan_two_mul, hA, Real.tan_arctan]
    rw [div_eq_div_iff hden.ne' homega.ne', hx]
    field_simp
    nlinarith [hs2]
  have hpi := Real.pi_pos
  rw [← htan2, Real.arctan_tan (by linarith) (by linarith)]

/-- For positive `omega` and `gamma`, the turning time computed by the code
equals `(π − atan(γ/ω)) / ω`. -/
lemma calculate_turning_time_eq (omega gamma : ℝ) (homega : 0 < omega) (hgamma : 0 < gamma) :
    calculate_turning_time omega gamma = (π - Real.arctan (gamma / omega)) / omega := by
  unfold calculate_turning_time
  have h1 : omega / gamma - Real.sqrt (gamma ^ 2 + omega ^ 2) / gamma
      = -((Real.sqrt (gamma ^ 2 + omega ^ 2) - omega) / gamma) := by
    field_simp
  rw [h1, Real.arctan_neg, ← two_arctan_sqrt_sub omega gamma homega hgamma]
  ring

/-- The achieved overshoot as a function of the ratio `u = γ/ω` alone. -/
noncomputable def overshoot_curve (u : ℝ) : ℝ :=
  Real.exp (-u * (π - Real.arctan u)) * Real.cos (Real.arctan u)

/-- For positive `omega` and `gamma`, the achieved overshoot recomputed by the
damping search equals `overshoot_curve (γ/ω)`. -/
lemma achieved_overshoot_eq (omega gamma : ℝ) (homega : 0 < omega) (hgamma : 0 < gamma) :
    achieved_overshoot omega gamma = overshoot_curve (gamma / omega) := by
  unfold achieved_overshoot calculate_interpolation_raw overshoot_curve
  rw [calculate_turning_time_eq omega gamma homega hgamma]
  have hωt : omega * ((π - Real.arctan (gamma / omega)) / omega)
      = π - Real.arctan (gamma / omega) := by
    field_simp
  have hγt : -gamma * ((π - Real.arctan (gamma / omega)) / omega)
      = -(gamma / omega) * (π - Real.arctan (gamma / omega)) := by
    field_simp
  rw [hωt, hγt, Real.cos_pi_sub]
  ring

lemma exp_log_half (y : ℝ) (hy : 0 < y) : Real.exp (Real.log y / 2) = Real.sqrt y := by
  have h : Real.exp (Real.log y / 2) ^ 2 = y := by
    rw [sq, ← Real.exp_add, add_halves, Real.exp_log hy]
  calc Real.exp (Real.log y / 2) = Real.sqrt (Real.exp (Real.log y / 2) ^ 2) :=
        (Real.sqrt_sq (Real.exp_pos _).le).symm
    _ = Real.sqrt y := by rw [h]

lemma cos_arctan_eq_exp (u : ℝ) :
    Real.cos (Real.arctan u) = Real.exp (-(Real.log (1 + u ^ 2) / 2)) := by
  rw [Real.cos_arctan, Real.exp_neg, exp_log_half _ (by positivity), one_div]

/-- Exponent form of `overshoot_curve`. -/
noncomputable def overshoot_exponent (u : ℝ) : ℝ :=
  -u * (π - Real.arctan u) - Real.log (1 + u ^ 2) / 2

lemma overshoot_curve_eq_exp (u : ℝ) :
    overshoot_curve u = Real.exp (overshoot_exponent u) := by
  unfold overshoot_curve overshoot_exponent
  rw [cos_arctan_eq_exp, ← Real.exp_add]
  ring_nf

lemma overshoot_exponent_hasDeriv (u : ℝ) :
    HasDerivAt overshoot_exponent (Real.arctan u - π) u := by
  have h2 : HasDerivAt (fun x : ℝ => π - Real.arctan x) (-(1 / (1 + u ^ 2))) u := by
    simpa using (hasDerivAt_const u π).sub (Real.hasDerivAt_arctan u)
  have h3 : HasDerivAt (fun x : ℝ => -x) (-1) u := (hasDerivAt_id u).neg
  have h4 : HasDerivAt (fun x : ℝ => -x * (π - Real.arctan x))
      ((-1) * (π - Real.arctan u) + (-u) * (-(1 / (1 + u ^ 2)))) u := h3.mul h2
  have h5 : HasDerivAt (fun x : ℝ => 1 + x ^ 2) (2 * u) u := by
    simpa using (hasDerivAt_pow 2 u).const_add 1
  have h6 : HasDerivAt (fun x : ℝ => Real.log (1 + x ^ 2)) (2 * u / (1 + u ^ 2)) u :=
    h5.log (by positivity)
  have h7 := h4.sub (h6.div_const 2)
  convert h7 using 1
  have hpos : (0 : ℝ) < 1 + u ^ 2 := by positivity
  field_simp
  ring

lemma overshoot_curve_strictAnti : StrictAnti overshoot_curve := by
  have h : StrictAnti overshoot_exponent := by
    apply strictAnti_of_deriv_neg
    intro x
    rw [(overshoot_exponent_hasDeriv x).deriv]
    have := Real.arctan_lt_pi_div_two x
    linarith [Real.pi_pos]
  intro a b hab
  rw [overshoot_curve_eq_exp, overshoot_curve_eq_exp]
  exact Real.exp_lt_exp.mpr (h hab)

lemma overshoot_curve_pos (u : ℝ) : 0 < overshoot_curve u := by
  rw [overshoot_curve_eq_exp]
  exact Real.exp_pos _

/-- Crude upper bound: the achieved overshoot decays at least like `exp(-uπ/2)`. -/
lemma overshoot_curve_le (u : ℝ) (hu : 0 ≤ u) :
    overshoot_curve u ≤ Real.exp (-u * (π / 2)) := by
  unfold overshoot_curve
  have hB : Real.arctan u < π / 2 := Real.arctan_lt_pi_div_two u
  have hB0 : 0 ≤ Real.arctan u := by
    have := Real.arctan_strictMono.monotone hu
    rwa [Real.arctan_zero] at this
  have h1 : Real.exp (-u * (π - Real.arctan u)) * Real.cos (Real.arctan u)
      ≤ Real.exp (-u * (π - Real.arctan u)) * 1 := by
    apply mul_le_mul_of_nonneg_left (Real.cos_le_one _) (Real.exp_pos _).le
  have h2 : Real.exp (-u * (π - Real.arctan u)) ≤ Real.exp (-u * (π / 2)) := by
    rw [Real.exp_le_exp]
    nlinarith
  linarith

/-- `x·tan x + log(cos x) > 0` on `(0, π/2)`: the curve's maximum strictly
exceeds its value at the undamped half-period. -/
lemma mul_tan_add_log_cos_pos :
    ∀ B ∈ Set.Ioo (0 : ℝ) (π / 2), 0 < B * Real.tan B + Real.log (Real.cos B) := by
  have hmono : StrictMonoOn (fun x => x * Real.tan x + Real.log (Real.cos x))
      (Set.Ico 0 (π / 2)) := by
    have hcos_pos : ∀ x ∈ Set.Ico (0 : ℝ) (π / 2), 0 < Real.cos x := by
      intro x hx
      exact Real.cos_pos_of_mem_Ioo ⟨by linarith [Real.pi_pos, hx.1], hx.2⟩
    apply strictMonoOn_of_deriv_pos (convex_Ico 0 (π / 2))
    · apply ContinuousOn.add
      · apply ContinuousOn.mul continuousOn_id
        apply Real.continuousOn_tan.mono
        intro x hx
        exact (hcos_pos x hx).ne'
      · exact ContinuousOn.log Real.continuous_cos.continuousOn
          fun x hx => (hcos_pos x hx).ne'
    · intro x hx
      rw [interior_Ico] at hx
      obtain ⟨hx0, hx2⟩ := hx
      have hcos : 0 < Real.cos x := hcos_pos x ⟨hx0.le, hx2⟩
      have h1 : HasDerivAt (fun y : ℝ => y * Real.tan y)
          (1 * Real.tan x + x * (1 / Real.cos x ^ 2)) x :=
        (hasDerivAt_id x).mul (Real.hasDerivAt_tan hcos.ne')
      have h2 : HasDerivAt (fun y : ℝ => Real.log (Real.cos y))
          (-Real.sin x / Real.cos x) x :=
        (Real.hasDerivAt_cos x).log hcos.ne'
      rw [(h1.add h2).deriv]
      rw [Real.tan_eq_sin_div_cos]
      have hval : 1 * (Real.sin x / Real.cos x) + x * (1 / Real.cos x ^ 2)
          + -Real.sin x / Real.cos x = x / Real.cos x ^ 2 := by
        field_simp
        ring
      rw [hval]
      exact div_pos hx0 (pow_pos hcos 2)
  intro B hB
  have h0mem : (0 : ℝ) ∈ Set.Ico (0 : ℝ) (π / 2) := ⟨le_refl 0, by linarith [Real.pi_pos]⟩
  have hBmem : B ∈ Set.Ico (0 : ℝ) (π / 2) := ⟨hB.1.le, hB.2⟩
  have := hmono h0mem hBmem hB.1
  simpa [Real.tan_zero, Real.log_one] using this

/-- Strict seed inequality: for `u > 0` the achieved overshoot strictly exceeds
the naive exponential-decay estimate `exp(-uπ)`. -/
lemma overshoot_curve_gt (u : ℝ) (hu : 0 < u) :
    Real.exp (-u * π) < overshoot_curve u := by
  have hB_pos : 0 < Real.arctan u := by
    have := Real.arctan_strictMono hu
    rwa [Real.arctan_zero] at this
  have hB_lt : Real.arctan u < π / 2 := Real.arctan_lt_pi_div_two u
  have hcos : 0 < Real.cos (Real.arctan u) := Real.cos_arctan_pos u
  have hkey : 0 < Real.arctan u * u + Real.log (Real.cos (Real.arctan u)) := by
    have := mul_tan_add_log_cos_pos (Real.arctan u) ⟨hB_pos, hB_lt⟩
    rwa [Real.tan_arctan] at this
  unfold overshoot_curve
  have hexpand : -u * (π - Real.arctan u) = -u * π + u * Real.arctan u := by ring
  rw [hexpand, Real.exp_add]
  have h2 : 1 < Real.exp (u * Real.arctan u) * Real.cos (Real.arctan u) := by
    have heq : Real.exp (u * Real.arctan u) * Real.cos (Real.arctan u)
        = Real.exp (u * Real.arctan u + Real.log (Real.cos (Real.arctan u))) := by
      rw [Real.exp_add, Real.exp_log hcos]
    rw [heq, ← Real.exp_zero]
    apply Real.exp_lt_exp.mpr
    nlinarith
  nlinarith [Real.exp_pos (-u * π)]

/-! ## The seed and the search direction -/

lemma seed_gamma_pos (overshoot omega : ℝ) (h0 : 0 < overshoot) (h1 : overshoot < 1)
    (homega : 0 < omega) : 0 < seed_gamma overshoot omega := by
  unfold seed_gamma
  exact div_pos (neg_pos.mpr (Real.log_neg h0 h1)) (div_pos Real.pi_pos homega)

/-- The target overshoot is exactly the naive decay estimate at the seed. -/
lemma seed_gamma_exp (overshoot omega : ℝ) (h0 : 0 < overshoot) (homega : 0 < omega) :
    Real.exp (-(seed_gamma overshoot omega / omega) * π) = overshoot := by
  unfold seed_gamma
  have hπ : π ≠ 0 := Real.pi_ne_zero
  have hω : omega ≠ 0 := homega.ne'
  have h : -(-Real.log overshoot / (π / omega) / omega) * π = Real.log overshoot := by
    field_simp
    ring
  rw [h, Real.exp_log h0]

/-- The direction decision of `calculate_gamma` always takes the `sign = 1`
branch for valid settings: the seed's achieved overshoot strictly exceeds the
target, so the search only ever increases `gamma`. -/
lemma search_sign_eq_one (overshoot omega : ℝ) (h0 : 0 < overshoot) (h1 : overshoot < 1)
    (homega : 0 < omega) : search_sign overshoot omega = 1 := by
  unfold search_sign
  have hseed : 0 < seed_gamma overshoot omega := seed_gamma_pos _ _ h0 h1 homega
  have hu : 0 < seed_gamma overshoot omega / omega := div_pos hseed homega
  have hgt := overshoot_curve_gt _ hu
  rw [if_pos]
  rw [achieved_overshoot_eq omega _ homega hseed]
  have ho : Real.exp (-(seed_gamma overshoot omega / omega) * π) = overshoot :=
    seed_gamma_exp overshoot omega h0 homega
  linarith

/-! ## Loop lemmas -/

lemma deviation_at_nonneg (overshoot omega g : ℝ) : 0 ≤ deviation_at overshoot omega g :=
  abs_nonneg _

lemma gamma_loop_zero (overshoot omega sign gamma deviation : ℝ) :
    gamma_loop overshoot omega sign 0 gamma deviation = none := rfl

lemma gamma_loop_succ (overshoot omega sign gamma deviation : ℝ) (fuel : ℕ) :
    gamma_loop overshoot omega sign (fuel + 1) gamma deviation
      = if deviation_at overshoot omega (gamma + sign * 0.01) < deviation then
          gamma_loop overshoot omega sign fuel (gamma + sign * 0.01)
            (deviation_at overshoot omega (gamma + sign * 0.01))
        else some gamma := rfl

lemma gamma_loop_probes_zero (overshoot omega sign gamma deviation : ℝ) :
    gamma_loop_probes overshoot omega sign 0 gamma deviation = [] := rfl

lemma gamma_loop_probes_succ (overshoot omega sign gamma deviation : ℝ) (fuel : ℕ) :
    gamma_loop_probes overshoot omega sign (fuel + 1) gamma deviation
      = (gamma + sign * 0.01) ::
          (if deviation_at overshoot omega (gamma + sign * 0.01) < deviation then
            gamma_loop_probes overshoot omega sign fuel (gamma + sign * 0.01)
              (deviation_at overshoot omega (gamma + sign * 0.01))
          else []) := rfl

/-- With search direction `+1`, every gamma probed by the loop stays positive. -/
lemma gamma_loop_probes_pos (overshoot omega : ℝ) (fuel : ℕ) :
    ∀ gamma deviation : ℝ, 0 < gamma →
      ∀ g ∈ gamma_loop_probes overshoot omega 1 fuel gamma deviation, 0 < g := by
  induction fuel with
  | zero =>
    intro gamma deviation hg g hmem
    rw [gamma_loop_probes_zero] at hmem
    simp at hmem
  | succ n ih =>
    intro gamma deviation hg g hmem
    rw [gamma_loop_probes_succ] at hmem
    rcases List.mem_cons.mp hmem with hgeq | htail
    · rw [hgeq]; norm_num; linarith
    · by_cases h : deviation_at overshoot omega (gamma + 1 * 0.01) < deviation
      · rw [if_pos h] at htail
        exact ih _ _ (by norm_num; linarith) g htail
      · rw [if_neg h] at htail
        simp at htail

/-- With search direction `+1`, a positive current gamma forces a positive result. -/
lemma gamma_loop_result_pos (overshoot omega : ℝ) (fuel : ℕ) :
    ∀ gamma deviation g : ℝ, 0 < gamma →
      gamma_loop overshoot omega 1 fuel gamma deviation = some g → 0 < g := by
  induction fuel with
  | zero =>
    intro gamma deviation g hg h
    rw [gamma_loop_zero] at h
    exact absurd h (by simp)
  | succ n ih =>
    intro gamma deviation g hg h
    rw [gamma_loop_succ] at h
    by_cases hcond : deviation_at overshoot omega (gamma + 1 * 0.01) < deviation
    · rw [if_pos hcond] at h
      exact ih _ _ _ (by norm_num; linarith) h
    · rw [if_neg hcond] at h
      have := Option.some_injective _ h
      linarith [this ▸ hg]

/-- The loop's answer does not depend on the fuel: any two sufficient fuels
give the same gamma. -/
lemma gamma_loop_fuel_irrel (overshoot omega sign : ℝ) (n : ℕ) :
    ∀ (m : ℕ) (gamma deviation g₁ g₂ : ℝ),
      gamma_loop overshoot omega sign n gamma deviation = some g₁ →
      gamma_loop overshoot omega sign m gamma deviation = some g₂ → g₁ = g₂ := by
  induction n with
  | zero =>
    intro m gamma deviation g₁ g₂ h1 h2
    rw [gamma_loop_zero] at h1
    exact absurd h1 (by simp)
  | succ n ih =>
    intro m gamma deviation g₁ g₂ h1 h2
    cases m with
    | zero =>
      rw [gamma_loop_zero] at h2
      exact absurd h2 (by simp)
    | succ m =>
      rw [gamma_loop_succ] at h1 h2
      by_cases hcond : deviation_at overshoot omega (gamma + sign * 0.01) < deviation
      · rw [if_pos hcond] at h1 h2
        exact ih m _ _ _ _ h1 h2
      · rw [if_neg hcond] at h1 h2
        have e1 := Option.some_injective _ h1
        have e2 := Option.some_injective _ h2
        rw [← e1, ← e2]

/-- C2: for valid settings (overshoot in (0,1), restPositionRuns ≥ 0), the seed
gamma is positive, every gamma at which the damping search calls
`calculate_turning_time` inside its loop is positive (for any fuel), and any
gamma (resp. params) returned by `calculate_gamma` (resp. `calculate_params`)
has a positive gamma. -/
theorem search_gamma_positive (s : InterpolatorSettings) (omega : ℝ)
    (homega : omega = calculate_omega s)
    (ho0 : 0 < s.overshoot) (ho1 : s.overshoot < 1) (hr : 0 ≤ s.rest_position_runs) :
    0 < seed_gamma s.overshoot omega
    ∧ (∀ fuel, ∀ g ∈ gamma_loop_probes s.overshoot omega (search_sign s.overshoot omega)
          fuel (seed_gamma s.overshoot omega)
          (deviation_at s.overshoot omega (seed_gamma s.overshoot omega)), 0 < g)
    ∧ (∀ fuel g, calculate_gamma s omega fuel = some g → 0 < g)
    ∧ (∀ fuel p, calculate_params s fuel = some p → 0 < p.gamma) := by
  subst homega
  have homega_pos : 0 < calculate_omega s := by
    unfold calculate_omega
    have h75 : (0 : ℝ) < s.rest_position_runs / 2 + 0.75 := by norm_num; linarith
    have := Real.pi_pos
    nlinarith
  have hseed := seed_gamma_pos _ _ ho0 ho1 homega_pos
  have hsign := search_sign_eq_one _ _ ho0 ho1 homega_pos
  have hloop : ∀ fuel g, calculate_gamma s (calculate_omega s) fuel = some g → 0 < g := by
    intro fuel g h
    unfold calculate_gamma at h
    rw [hsign] at h
    exact gamma_loop_result_pos _ _ fuel _ _ _ hseed h
  refine ⟨hseed, ?_, hloop, ?_⟩
  · intro fuel g hg
    rw [hsign] at hg
    exact gamma_loop_probes_pos _ _ fuel _ _ hseed g hg
  · intro fuel p h
    have hunfold : calculate_params s fuel
        = (calculate_gamma s (calculate_omega s) fuel).map
            fun gamma => ⟨calculate_omega s, gamma⟩ := rfl
    rw [hunfold] at h
    cases hg : calculate_gamma s (calculate_omega s) fuel with
    | none => rw [hg] at h; simp at h
    | some g =>
      rw [hg] at h
      simp only [Option.map_some'] at h
      have hp := Option.some_injective _ h
      have := hloop fuel g hg
      rw [← hp]
      exact this

/-- C2 witness. -/
theorem search_gamma_positive_witness :
    (0 : ℝ) < 1 / 2 ∧ (1 : ℝ) / 2 < 1 ∧ (0 : ℝ) ≤ 4
      ∧ 0 < seed_gamma (1 / 2) (calculate_omega ⟨1 / 2, 4⟩)
      ∧ (∀ fuel g, calculate_gamma ⟨1 / 2, 4⟩ (calculate_omega ⟨1 / 2, 4⟩) fuel = some g →
          0 < g) := by
  have h := search_gamma_positive ⟨1 / 2, 4⟩ _ rfl (by norm_num) (by norm_num) (by norm_num)
  exact ⟨by norm_num, by norm_num, by norm_num, h.1, h.2.2.1⟩

/-- Run-level invariant of the damping-search loop, for a start state whose
stored deviation is the deviation of the start gamma (as in `calculate_gamma`). -/
lemma gamma_loop_invariant_aux (overshoot omega sign : ℝ) (fuel : ℕ) :
    ∀ gamma g' : ℝ,
      gamma_loop overshoot omega sign fuel gamma (deviation_at overshoot omega gamma)
        = some g' →
      ∃ m : ℕ, g' = gamma + sign * 0.01 * m
        ∧ (∀ i : ℕ, i < m →
            deviation_at overshoot omega (gamma + sign * 0.01 * (i + 1))
              < deviation_at overshoot omega (gamma + sign * 0.01 * i))
        ∧ deviation_at overshoot omega g' ≤ deviation_at overshoot omega gamma
        ∧ ¬ deviation_at overshoot omega (g' + sign * 0.01)
            < deviation_at overshoot omega g' := by
  induction fuel with
  | zero =>
    intro gamma g' h
    rw [gamma_loop_zero] at h
    exact absurd h (by simp)
  | succ n ih =>
    intro gamma g' h
    rw [gamma_loop_succ] at h
    by_cases hcond : deviation_at overshoot omega (gamma + sign * 0.01)
        < deviation_at overshoot omega gamma
    · rw [if_pos hcond] at h
      obtain ⟨m, hm_eq, hm_dec, hm_le, hm_stop⟩ := ih (gamma + sign * 0.01) g' h
      refine ⟨m + 1, ?_, ?_, ?_, hm_stop⟩
      · rw [hm_eq]; push_cast; ring
      · intro i hi
        cases i with
        | zero =>
          have e1 : gamma + sign * 0.01 * ((0 : ℕ) + 1 : ℝ) = gamma + sign * 0.01 := by
            push_cast; ring
          have e2 : gamma + sign * 0.01 * ((0 : ℕ) : ℝ) = gamma := by
            push_cast; ring
          rw [e1, e2]
          exact hcond
        | succ j =>
          have hj := hm_dec j (by omega)
          have e1 : gamma + sign * 0.01 * ((j + 1 : ℕ) + 1 : ℝ)
              = gamma + sign * 0.01 + sign * 0.01 * ((j : ℝ) + 1) := by
            push_cast; ring
          have e2 : gamma + sign * 0.01 * ((j + 1 : ℕ) : ℝ)
              = gamma + sign * 0.01 + sign * 0.01 * (j : ℝ) := by
            push_cast; ring
          rw [e1, e2]
          exact hj
      · exact le_trans hm_le hcond.le
    · rw [if_neg hcond] at h
      have e := Option.some_injective _ h
      refine ⟨0, ?_, ?_, ?_, ?_⟩
      · rw [← e]; simp
      · intro i hi; omega
      · rw [← e]
      · rw [← e]; exact hcond

/-- C3: loop invariant of the damping search.  If `calculate_gamma` returns
`g'`, then `g'` is the gamma reached after some number `m` of accepted steps
from the seed, every accepted step strictly decreased the deviation, the
returned gamma's deviation is at most the seed gamma's deviation, and the loop
stopped at the first non-improving step (the probe after `g'` does not
improve). -/
theorem calculate_gamma_invariant (s : InterpolatorSettings) (omega : ℝ) (fuel : ℕ)
    (g' : ℝ) (h : calculate_gamma s omega fuel = some g') :
    ∃ m : ℕ,
      g' = seed_gamma s.overshoot omega + search_sign s.overshoot omega * 0.01 * m
      ∧ (∀ i : ℕ, i < m →
          deviation_at s.overshoot omega
              (seed_gamma s.overshoot omega + search_sign s.overshoot omega * 0.01 * (i + 1))
            < deviation_at s.overshoot omega
              (seed_gamma s.overshoot omega + search_sign s.overshoot omega * 0.01 * i))
      ∧ deviation_at s.overshoot omega g'
          ≤ deviation_at s.overshoot omega (seed_gamma s.overshoot omega)
      ∧ ¬ deviation_at s.overshoot omega (g' + search_sign s.overshoot omega * 0.01)
          < deviation_at s.overshoot omega g' :=
  gamma_loop_invariant_aux s.overshoot omega (search_sign s.overshoot omega) fuel
    (seed_gamma s.overshoot omega) g' h

/-! ## A trivially terminating run, used as a concrete instance -/

lemma seed_gamma_one (omega : ℝ) : seed_gamma 1 omega = 0 := by
  simp [seed_gamma]

lemma achieved_overshoot_one_zero : achieved_overshoot 1 0 = 1 := by
  unfold achieved_overshoot calculate_interpolation_raw calculate_turning_time
  norm_num [Real.arctan_zero, Real.cos_pi]

lemma deviation_at_trivial : deviation_at 1 1 0 = 0 := by
  simp [deviation_at, achieved_overshoot_one_zero]

/-- For the (degenerate but well-defined) settings `{overshoot = 1, runs = 0}`
and `omega = 1`, the very first probe fails to improve on the seed's zero
deviation, so the search stops after one iteration and returns the seed. -/
lemma calculate_gamma_trivial (fuel : ℕ) :
    calculate_gamma ⟨1, 0⟩ 1 (fuel + 1) = some 0 := by
  show gamma_loop 1 1 (search_sign 1 1) (fuel + 1) (seed_gamma 1 1)
      (deviation_at 1 1 (seed_gamma 1 1)) = some 0
  rw [seed_gamma_one, deviation_at_trivial, gamma_loop_succ, if_neg]
  exact not_lt.mpr (deviation_at_nonneg _ _ _)

/-- C3 witness. -/
theorem calculate_gamma_invariant_witness :
    calculate_gamma ⟨1, 0⟩ 1 1 = some 0
    ∧ ∃ m : ℕ,
        (0 : ℝ) = seed_gamma 1 1 + search_sign 1 1 * 0.01 * m
        ∧ (∀ i : ℕ, i < m →
            deviation_at 1 1 (seed_gamma 1 1 + search_sign 1 1 * 0.01 * (i + 1))
              < deviation_at 1 1 (seed_gamma 1 1 + search_sign 1 1 * 0.01 * i))
        ∧ deviation_at 1 1 0 ≤ deviation_at 1 1 (seed_gamma 1 1)
        ∧ ¬ deviation_at 1 1 (0 + search_sign 1 1 * 0.01) < deviation_at 1 1 0 :=
  ⟨calculate_gamma_trivial 0,
    calculate_gamma_invariant ⟨1, 0⟩ 1 1 0 (calculate_gamma_trivial 0)⟩

/-- C9: `calculate_params` is deterministic.  Two settings that agree field by
field give identical results at every fuel, and any two successful runs (at any
fuels) return the same omega and the same gamma. -/
theorem calculate_params_deterministic (s₁ s₂ : InterpolatorSettings)
    (ho : s₁.overshoot = s₂.overshoot)
    (hr : s₁.rest_position_runs = s₂.rest_position_runs) :
    (∀ fuel, calculate_params s₁ fuel = calculate_params s₂ fuel)
    ∧ (∀ fuel₁ fuel₂ p₁ p₂, calculate_params s₁ fuel₁ = some p₁ →
        calculate_params s₂ fuel₂ = some p₂ →
        p₁.omega = p₂.omega ∧ p₁.gamma = p₂.gamma) := by
  have hs : s₁ = s₂ := by
    cases s₁; cases s₂
    simp_all
  subst hs
  refine ⟨fun _ => rfl, ?_⟩
  intro fuel₁ fuel₂ p₁ p₂ h1 h2
  have hunfold : ∀ fuel, calculate_params s₁ fuel
      = (calculate_gamma s₁ (calculate_omega s₁) fuel).map
          fun gamma => ⟨calculate_omega s₁, gamma⟩ := fun _ => rfl
  rw [hunfold] at h1 h2
  cases hg1 : calculate_gamma s₁ (calculate_omega s₁) fuel₁ with
  | none => rw [hg1] at h1; simp at h1
  | some g₁ =>
    cases hg2 : calculate_gamma s₁ (calculate_omega s₁) fuel₂ with
    | none => rw [hg2] at h2; simp at h2
    | some g₂ =>
      rw [hg1] at h1
      rw [hg2] at h2
      simp only [Option.map_some'] at h1 h2
      have e1 := Option.some_injective _ h1
      have e2 := Option.some_injective _ h2
      have hgg : g₁ = g₂ := gamma_loop_fuel_irrel _ _ _ fuel₁ fuel₂ _ _ _ _ hg1 hg2
      rw [← e1, ← e2, hgg]
      exact ⟨rfl, rfl⟩

/-- C9 witness. -/
theorem calculate_params_deterministic_witness :
    (⟨1, 0⟩ : InterpolatorSettings).overshoot = (⟨1, 0⟩ : InterpolatorSettings).overshoot
    ∧ (∀ fuel, calculate_params ⟨1, 0⟩ fuel = calculate_params ⟨1, 0⟩ fuel)
    ∧ (∀ fuel₁ fuel₂ p₁ p₂, calculate_params ⟨1, 0⟩ fuel₁ = some p₁ →
        calculate_params ⟨1, 0⟩ fuel₂ = some p₂ →
        p₁.omega = p₂.omega ∧ p₁.gamma = p₂.gamma) := by
  have h := calculate_params_deterministic ⟨1, 0⟩ ⟨1, 0⟩ rfl rfl
  exact ⟨rfl, h.1, h.2⟩

/-! ## The turning time is a critical point and a local maximum -/

/-- Derivative of the curve at any time:
`d/dt (1 - e^{-γt} cos(ωt)) = e^{-γt} (γ cos(ωt) + ω sin(ωt))`. -/
lemma hasDerivAt_interpolation (omega gamma t : ℝ) :
    HasDerivAt (fun x => calculate_interpolation_raw omega gamma x)
      (Real.exp (-gamma * t)
        * (gamma * Real.cos (omega * t) + omega * Real.sin (omega * t))) t := by
  have h1 : HasDerivAt (fun x : ℝ => -gamma * x) (-gamma) t := by
    simpa using (hasDerivAt_id t).const_mul (-gamma)
  have h2 : HasDerivAt (fun x : ℝ => Real.exp (-gamma * x))
      (Real.exp (-gamma * t) * -gamma) t := h1.exp
  have h3 : HasDerivAt (fun x : ℝ => omega * x) omega t := by
    simpa using (hasDerivAt_id t).const_mul omega
  have h4 : HasDerivAt (fun x : ℝ => Real.cos (omega * x))
      (-Real.sin (omega * t) * omega) t := h3.cos
  have h5 := (hasDerivAt_const t (1 : ℝ)).sub (h2.mul h4)
  have h6 : (0 : ℝ) - (Real.exp (-gamma * t) * -gamma * Real.cos (omega * t)
      + Real.exp (-gamma * t) * (-Real.sin (omega * t) * omega))
      = Real.exp (-gamma * t)
        * (gamma * Real.cos (omega * t) + omega * Real.sin (omega * t)) := by
    ring
  rw [h6] at h5
  exact h5

/-- Phase form of the derivative's trigonometric factor. -/
lemma damped_bracket_eq (omega gamma θ : ℝ) (homega : 0 < omega) :
    gamma * Real.cos θ + omega * Real.sin θ
      = omega / Real.cos (Real.arctan (gamma / omega))
          * Real.sin (θ + Real.arctan (gamma / omega)) := by
  have hcos : 0 < Real.cos (Real.arctan (gamma / omega)) := Real.cos_arctan_pos _
  have htan : Real.sin (Real.arctan (gamma / omega)) / Real.cos (Real.arctan (gamma / omega))
      = gamma / omega := by
    rw [← Real.tan_eq_sin_div_cos, Real.tan_arctan]
  rw [Real.sin_add]
  field_simp at htan ⊢
  linear_combination (-Real.cos θ) * htan

/-- C8: for positive `omega` and `gamma`, `calculate_turning_time` returns the
closed form `2·atan(ω/γ − √(γ²+ω²)/γ)/ω + π/ω`, the curve's derivative
vanishes there, and the curve attains a local maximum there (values at all
nearby times are ≤ the value at the turning time). -/
theorem calculate_turning_time_spec (omega gamma : ℝ)
    (homega : 0 < omega) (hgamma : 0 < gamma) :
    calculate_turning_time omega gamma
      = 2 * Real.arctan (omega / gamma - Real.sqrt (gamma ^ 2 + omega ^ 2) / gamma) / omega
        + π / omega
    ∧ deriv (fun t => calculate_interpolation_raw omega gamma t)
        (calculate_turning_time omega gamma) = 0
    ∧ IsLocalMax (fun t => calculate_interpolation_raw omega gamma t)
        (calculate_turning_time omega gamma) := by
  have hπ := Real.pi_pos
  set B := Real.arctan (gamma / omega) with hB
  have hB_pos : 0 < B := by
    have := Real.arctan_strictMono (div_pos hgamma homega)
    rwa [Real.arctan_zero] at this
  have hB_lt : B < π / 2 := Real.arctan_lt_pi_div_two _
  have hcosB : 0 < Real.cos B := Real.cos_arctan_pos _
  have htt : calculate_turning_time omega gamma = (π - B) / omega :=
    calculate_turning_time_eq omega gamma homega hgamma
  have hderiv : ∀ t : ℝ,
      HasDerivAt (fun x => calculate_interpolation_raw omega gamma x)
        (Real.exp (-gamma * t) * (omega / Real.cos B * Real.sin (omega * t + B))) t := by
    intro t
    have h := hasDerivAt_interpolation omega gamma t
    rwa [damped_bracket_eq omega gamma (omega * t) homega] at h
  have hθstar : omega * ((π - B) / omega) + B = π := by
    field_simp
  refine ⟨rfl, ?_, ?_⟩
  · rw [htt, (hderiv _).deriv, hθstar, Real.sin_pi]
    ring
  · rw [htt]
    have hδ : 0 < π / (2 * omega) := by positivity
    have g0 : (π - B) / omega - π / (2 * omega) < (π - B) / omega := by linarith
    have g1 : (π - B) / omega < (π - B) / omega + π / (2 * omega) := by linarith
    apply isLocalMax_of_deriv_Ioo g0 g1
    · exact ((hderiv _).differentiableAt).continuousAt
    · intro x _
      exact ((hderiv x).differentiableAt).differentiableWithinAt
    · intro x _
      exact ((hderiv x).differentiableAt).differentiableWithinAt
    · intro x hx
      obtain ⟨hx1, hx2⟩ := hx
      rw [(hderiv x).deriv]
      have hlow : π / 2 < omega * x + B := by
        have : omega * ((π - B) / omega - π / (2 * omega)) + B = π / 2 := by
          field_simp
          ring
        nlinarith [mul_lt_mul_of_pos_left hx1 homega]
      have hhigh : omega * x + B < π := by
        nlinarith [mul_lt_mul_of_pos_left hx2 homega, hθstar]
      have hsin : 0 ≤ Real.sin (omega * x + B) :=
        Real.sin_nonneg_of_nonneg_of_le_pi (by linarith) (by linarith)
      have h1 : 0 ≤ omega / Real.cos B := (div_pos homega hcosB).le
      positivity
    · intro x hx
      obtain ⟨hx1, hx2⟩ := hx
      rw [(hderiv x).deriv]
      have hlow : π < omega * x + B := by
        nlinarith [mul_lt_mul_of_pos_left hx1 homega, hθstar]
      have hhigh : omega * x + B < π + π / 2 := by
        have : omega * ((π - B) / omega + π / (2 * omega)) + B = π + π / 2 - B + B := by
          field_simp
          ring
        nlinarith [mul_lt_mul_of_pos_left hx2 homega]
      have hsin : Real.sin (omega * x + B) ≤ 0 := by
        have h1 : Real.sin (omega * x + B - π) = -Real.sin (omega * x + B) :=
          Real.sin_sub_pi _
        have h2 : 0 ≤ Real.sin (omega * x + B - π) :=
          Real.sin_nonneg_of_nonneg_of_le_pi (by linarith) (by linarith)
        linarith
      have h1 : 0 ≤ omega / Real.cos B := (div_pos homega hcosB).le
      have h2 : omega / Real.cos B * Real.sin (omega * x + B) ≤ 0 :=
        mul_nonpos_iff.mpr (Or.inl ⟨h1, hsin⟩)
      have h3 : 0 ≤ Real.exp (-gamma * x) := (Real.exp_pos _).le
      nlinarith

/-- C8 witness. -/
theorem calculate_turning_time_spec_witness :
    (0 : ℝ) < 1
    ∧ (calculate_turning_time 1 1
        = 2 * Real.arctan (1 / 1 - Real.sqrt (1 ^ 2 + 1 ^ 2) / 1) / 1 + π / 1
      ∧ deriv (fun t => calculate_interpolation_raw 1 1 t) (calculate_turning_time 1 1) = 0
      ∧ IsLocalMax (fun t => calculate_interpolation_raw 1 1 t) (calculate_turning_time 1 1)) :=
  ⟨by norm_num, calculate_turning_time_spec 1 1 (by norm_num) (by norm_num)⟩

/-! ## Termination of the damping search -/

/-- If the first `m` steps improve and step `m` does not, the loop returns the
gamma reached after `m` accepted steps, using `m + 1` units of fuel. -/
lemma gamma_loop_runs_to (overshoot omega sign : ℝ) :
    ∀ (m : ℕ) (gamma : ℝ),
      (¬ deviation_at overshoot omega (gamma + sign * 0.01 * (m + 1))
          < deviation_at overshoot omega (gamma + sign * 0.01 * m)) →
      (∀ i : ℕ, i < m →
        deviation_at overshoot omega (gamma + sign * 0.01 * (i + 1))
          < deviation_at overshoot omega (gamma + sign * 0.01 * i)) →
      gamma_loop overshoot omega sign (m + 1) gamma (deviation_at overshoot omega gamma)
        = some (gamma + sign * 0.01 * m) := by
  intro m
  induction m with
  | zero =>
    intro gamma hstop _
    rw [gamma_loop_succ, if_neg, Nat.cast_zero, mul_zero, add_zero]
    have e1 : gamma + sign * 0.01 * ((0 : ℕ) + 1 : ℝ) = gamma + sign * 0.01 := by
      push_cast; ring
    have e0 : gamma + sign * 0.01 * ((0 : ℕ) : ℝ) = gamma := by
      push_cast; ring
    rw [e1, e0] at hstop
    exact hstop
  | succ m ih =>
    intro gamma hstop himp
    have hfirst := himp 0 (by omega)
    have e1 : gamma + sign * 0.01 * ((0 : ℕ) + 1 : ℝ) = gamma + sign * 0.01 := by
      push_cast; ring
    have e0 : gamma + sign * 0.01 * ((0 : ℕ) : ℝ) = gamma := by
      push_cast; ring
    rw [e1, e0] at hfirst
    rw [gamma_loop_succ, if_pos hfirst]
    have hshift : ∀ k : ℕ, gamma + sign * 0.01 * ((k : ℝ) + 1)
        = gamma + sign * 0.01 + sign * 0.01 * (k : ℝ) := by
      intro k; ring
    have hstop' : ¬ deviation_at overshoot omega
          (gamma + sign * 0.01 + sign * 0.01 * ((m : ℝ) + 1))
        < deviation_at overshoot omega (gamma + sign * 0.01 + sign * 0.01 * (m : ℝ)) := by
      have ea : gamma + sign * 0.01 * ((m + 1 : ℕ) + 1 : ℝ)
          = gamma + sign * 0.01 + sign * 0.01 * ((m : ℝ) + 1) := by
        push_cast; ring
      have eb : gamma + sign * 0.01 * ((m + 1 : ℕ) : ℝ)
          = gamma + sign * 0.01 + sign * 0.01 * (m : ℝ) := by
        push_cast; ring
      rw [ea, eb] at hstop
      exact hstop
    have himp' : ∀ i : ℕ, i < m →
        deviation_at overshoot omega (gamma + sign * 0.01 + sign * 0.01 * ((i : ℕ) + 1 : ℝ))
          < deviation_at overshoot omega (gamma + sign * 0.01 + sign * 0.01 * ((i : ℕ) : ℝ)) := by
      intro i hi
      have := himp (i + 1) (by omega)
      have ea : gamma + sign * 0.01 * ((i + 1 : ℕ) + 1 : ℝ)
          = gamma + sign * 0.01 + sign * 0.01 * ((i : ℕ) + 1 : ℝ) := by
        push_cast; ring
      have eb : gamma + sign * 0.01 * ((i + 1 : ℕ) : ℝ)
          = gamma + sign * 0.01 + sign * 0.01 * ((i : ℕ) : ℝ) := by
        push_cast; ring
      rw [ea, eb] at this
      exact this
    have := ih (gamma + sign * 0.01) hstop' himp'
    rw [this]
    have ec : gamma + sign * 0.01 + sign * 0.01 * (m : ℝ)
        = gamma + sign * 0.01 * ((m + 1 : ℕ) : ℝ) := by
      push_cast; ring
    rw [ec]

/-- If some step fails to improve, the loop terminates (with enough fuel). -/
lemma gamma_loop_finds (overshoot omega sign gamma : ℝ)
    (hstop : ∃ j : ℕ, ¬ deviation_at overshoot omega (gamma + sign * 0.01 * (j + 1))
        < deviation_at overshoot omega (gamma + sign * 0.01 * j)) :
    ∃ (fuel : ℕ) (g : ℝ),
      gamma_loop overshoot omega sign fuel gamma (deviation_at overshoot omega gamma)
        = some g := by
  classical
  let m := Nat.find hstop
  have hm := Nat.find_spec hstop
  have hmin : ∀ i : ℕ, i < m → deviation_at overshoot omega (gamma + sign * 0.01 * (i + 1))
      < deviation_at overshoot omega (gamma + sign * 0.01 * i) := by
    intro i hi
    have := Nat.find_min hstop hi
    exact not_not.mp this
  exact ⟨m + 1, gamma + sign * 0.01 * m, gamma_loop_runs_to overshoot omega sign m gamma hm hmin⟩

/-- The achieved overshoot is strictly decreasing in `gamma` (for positive
arguments): more damping lowers the peak. -/
lemma achieved_overshoot_strictAnti (omega g g' : ℝ) (homega : 0 < omega)
    (hg : 0 < g) (hgg : g < g') :
    achieved_overshoot omega g' < achieved_overshoot omega g := by
  rw [achieved_overshoot_eq omega g homega hg,
    achieved_overshoot_eq omega g' homega (lt_trans hg hgg)]
  exact overshoot_curve_strictAnti ((div_lt_div_iff_of_pos_right homega).mpr hgg)

/-- Sufficiently large damping pushes the achieved overshoot below any positive
target. -/
lemma achieved_overshoot_small (omega gamma target : ℝ) (homega : 0 < omega)
    (hgamma : 0 < gamma) (htarget : 0 < target)
    (hbig : 2 * omega * (-Real.log target) / π < gamma) :
    achieved_overshoot omega gamma < target := by
  rw [achieved_overshoot_eq omega gamma homega hgamma]
  have hπ := Real.pi_pos
  have h1 : overshoot_curve (gamma / omega) ≤ Real.exp (-(gamma / omega) * (π / 2)) :=
    overshoot_curve_le _ (div_pos hgamma homega).le
  have h2 : Real.exp (-(gamma / omega) * (π / 2)) < target := by
    rw [← Real.exp_log htarget, Real.exp_lt_exp]
    rw [div_lt_iff₀ hπ] at hbig
    have hω : omega ≠ 0 := homega.ne'
    have hc : gamma / omega * omega = gamma := div_mul_cancel₀ _ hω
    nlinarith [hbig, homega, hπ, hc]
  linarith

/-- C4: for the settings `{restPositionRuns: 16, overshoot: 0.85}` the damping
search's while-loop terminates after finitely many iterations, and
`calculate_params` returns a pair with positive omega and positive gamma. -/
theorem long_running_settings_converge :
    ∃ (fuel : ℕ) (p : InterpolatorParams),
      calculate_params ⟨0.85, 16⟩ fuel = some p ∧ 0 < p.omega ∧ 0 < p.gamma := by
  have hπ := Real.pi_pos
  set s : InterpolatorSettings := ⟨0.85, 16⟩ with hs
  set omega := calculate_omega s with homega
  have homega_pos : 0 < omega := by
    rw [homega]
    show 0 < 2 * π * ((16 : ℝ) / 2 + 0.75)
    nlinarith
  have ho0 : (0 : ℝ) < 0.85 := by norm_num
  have ho1 : (0.85 : ℝ) < 1 := by norm_num
  set gamma0 := seed_gamma 0.85 omega with hgamma0
  have hseed_pos : 0 < gamma0 := seed_gamma_pos _ _ ho0 ho1 homega_pos
  have hsign : search_sign 0.85 omega = 1 := search_sign_eq_one _ _ ho0 ho1 homega_pos
  set C := 2 * omega * (-Real.log 0.85) / π with hC
  obtain ⟨n, hn⟩ := exists_nat_gt (C * 100)
  have hgpos : ∀ j : ℕ, 0 < gamma0 + 1 * 0.01 * (j : ℝ) := by
    intro j
    have : (0 : ℝ) ≤ 1 * 0.01 * (j : ℝ) := by positivity
    linarith
  have hbig : ∀ j : ℕ, n ≤ j → C < gamma0 + 1 * 0.01 * (j : ℝ) := by
    intro j hj
    have h1 : (n : ℝ) ≤ j := Nat.cast_le.mpr hj
    nlinarith
  have hsmall : ∀ j : ℕ, n ≤ j → achieved_overshoot omega (gamma0 + 1 * 0.01 * (j : ℝ)) < 0.85 :=
    fun j hj =>
      achieved_overshoot_small omega _ 0.85 homega_pos (hgpos j) (by norm_num) (hbig j hj)
  have ha1 : achieved_overshoot omega (gamma0 + 1 * 0.01 * (n : ℝ)) < 0.85 := hsmall n le_rfl
  have ha2 : achieved_overshoot omega (gamma0 + 1 * 0.01 * ((n : ℝ) + 1)) < 0.85 := by
    have := hsmall (n + 1) (by omega)
    push_cast at this
    exact this
  have hanti : achieved_overshoot omega (gamma0 + 1 * 0.01 * ((n : ℝ) + 1))
      < achieved_overshoot omega (gamma0 + 1 * 0.01 * (n : ℝ)) :=
    achieved_overshoot_strictAnti omega _ _ homega_pos (hgpos n) (by nlinarith)
  have hstop : ¬ deviation_at 0.85 omega (gamma0 + 1 * 0.01 * ((n : ℝ) + 1))
      < deviation_at 0.85 omega (gamma0 + 1 * 0.01 * (n : ℝ)) := by
    unfold deviation_at
    rw [abs_of_pos (by linarith), abs_of_pos (by linarith)]
    exact not_lt.mpr (by linarith)
  obtain ⟨fuel, g, hloop⟩ := gamma_loop_finds 0.85 omega 1 gamma0 ⟨n, hstop⟩
  have hcg : calculate_gamma s omega fuel = some g := by
    show gamma_loop 0.85 omega (search_sign 0.85 omega) fuel (seed_gamma 0.85 omega)
        (deviation_at 0.85 omega (seed_gamma 0.85 omega)) = some g
    rw [hsign, ← hgamma0]
    exact hloop
  have hg_pos : 0 < g := gamma_loop_result_pos 0.85 omega fuel _ _ _ hseed_pos hloop
  refine ⟨fuel, ⟨omega, g⟩, ?_, homega_pos, hg_pos⟩
  have hunfold : calculate_params s fuel
      = (calculate_gamma s omega fuel).map fun gamma => ⟨omega, gamma⟩ := rfl
  rw [hunfold, hcg, Option.map_some']

/-! ## Elementary Taylor bounds used for the concrete round-trip test -/

/-- A function vanishing at `0` with nonnegative derivative on `[0, ∞)` is
nonnegative there. -/
lemma nonneg_of_hasDeriv (F G : ℝ → ℝ)
    (hd : ∀ x, HasDerivAt F (G x) x) (h0 : F 0 = 0)
    (hG : ∀ x, 0 ≤ x → 0 ≤ G x) : ∀ x, 0 ≤ x → 0 ≤ F x := by
  intro x hx
  have hmono : MonotoneOn F (Set.Ici (0 : ℝ)) := by
    apply monotoneOn_of_deriv_nonneg (convex_Ici 0)
    · exact fun y _ => ((hd y).differentiableAt).continuousAt.continuousWithinAt
    · exact fun y _ => ((hd y).differentiableAt).differentiableWithinAt
    · intro y hy
      rw [interior_Ici] at hy
      rw [(hd y).deriv]
      exact hG y (le_of_lt hy)
  have h := hmono (Set.mem_Ici.mpr le_rfl) (Set.mem_Ici.mpr hx) hx
  rw [h0] at h
  exact h

lemma cos_ge_p2 (x : ℝ) (hx : 0 ≤ x) : 1 - x ^ 2 / 2 ≤ Real.cos x := by
  have key := nonneg_of_hasDeriv (fun y => Real.cos y - (1 - y ^ 2 / 2))
      (fun y => -Real.sin y + y) ?_ (by norm_num) ?_ x hx
  · linarith
  · intro y
    have h := (Real.hasDerivAt_cos y).sub
      ((hasDerivAt_const y (1 : ℝ)).sub ((hasDerivAt_pow 2 y).div_const 2))
    convert h using 1
    push_cast
    ring
  · intro y hy
    show 0 ≤ -Real.sin y + y
    have := Real.sin_le hy
    linarith

lemma sin_ge_p3 (x : ℝ) (hx : 0 ≤ x) : x - x ^ 3 / 6 ≤ Real.sin x := by
  have key := nonneg_of_hasDeriv (fun y => Real.sin y - (y - y ^ 3 / 6))
      (fun y => Real.cos y - (1 - y ^ 2 / 2)) ?_ (by norm_num) ?_ x hx
  · linarith
  · intro y
    have h := (Real.hasDerivAt_sin y).sub
      ((hasDerivAt_id y).sub ((hasDerivAt_pow 3 y).div_const 6))
    convert h using 1
    push_cast
    ring
  · intro y hy
    exact sub_nonneg.mpr (cos_ge_p2 y hy)

lemma cos_le_p4 (x : ℝ) (hx : 0 ≤ x) : Real.cos x ≤ 1 - x ^ 2 / 2 + x ^ 4 / 24 := by
  have key := nonneg_of_hasDeriv (fun y => 1 - y ^ 2 / 2 + y ^ 4 / 24 - Real.cos y)
      (fun y => Real.sin y - (y - y ^ 3 / 6)) ?_ (by norm_num) ?_ x hx
  · linarith
  · intro y
    have h := (((hasDerivAt_const y (1 : ℝ)).sub ((hasDerivAt_pow 2 y).div_const 2)).add
      ((hasDerivAt_pow 4 y).div_const 24)).sub (Real.hasDerivAt_cos y)
    convert h using 1
    push_cast
    ring
  · intro y hy
    exact sub_nonneg.mpr (sin_ge_p3 y hy)

lemma sin_le_p5 (x : ℝ) (hx : 0 ≤ x) : Real.sin x ≤ x - x ^ 3 / 6 + x ^ 5 / 120 := by
  have key := nonneg_of_hasDeriv (fun y => y - y ^ 3 / 6 + y ^ 5 / 120 - Real.sin y)
      (fun y => 1 - y ^ 2 / 2 + y ^ 4 / 24 - Real.cos y) ?_ (by norm_num) ?_ x hx
  · linarith
  · intro y
    have h := (((hasDerivAt_id y).sub ((hasDerivAt_pow 3 y).div_const 6)).add
      ((hasDerivAt_pow 5 y).div_const 120)).sub (Real.hasDerivAt_sin y)
    convert h using 1
    push_cast
    ring
  · intro y hy
    exact sub_nonneg.mpr (cos_le_p4 y hy)

lemma cos_ge_p6 (x : ℝ) (hx : 0 ≤ x) :
    1 - x ^ 2 / 2 + x ^ 4 / 24 - x ^ 6 / 720 ≤ Real.cos x := by
  have key := nonneg_of_hasDeriv
      (fun y => Real.cos y - (1 - y ^ 2 / 2 + y ^ 4 / 24 - y ^ 6 / 720))
      (fun y => y - y ^ 3 / 6 + y ^ 5 / 120 - Real.sin y) ?_ (by norm_num) ?_ x hx
  · linarith
  · intro y
    have h := (Real.hasDerivAt_cos y).sub
      ((((hasDerivAt_const y (1 : ℝ)).sub ((hasDerivAt_pow 2 y).div_const 2)).add
        ((hasDerivAt_pow 4 y).div_const 24)).sub ((hasDerivAt_pow 6 y).div_const 720))
    convert h using 1
    push_cast
    ring
  · intro y hy
    exact sub_nonneg.mpr (sin_le_p5 y hy)

lemma sin_ge_p7 (x : ℝ) (hx : 0 ≤ x) :
    x - x ^ 3 / 6 + x ^ 5 / 120 - x ^ 7 / 5040 ≤ Real.sin x := by
  have key := nonneg_of_hasDeriv
      (fun y => Real.sin y - (y - y ^ 3 / 6 + y ^ 5 / 120 - y ^ 7 / 5040))
      (fun y => Real.cos y - (1 - y ^ 2 / 2 + y ^ 4 / 24 - y ^ 6 / 720)) ?_
      (by norm_num) ?_ x hx
  · linarith
  · intro y
    have h := (Real.hasDerivAt_sin y).sub
      ((((hasDerivAt_id y).sub ((hasDerivAt_pow 3 y).div_const 6)).add
        ((hasDerivAt_pow 5 y).div_const 120)).sub ((hasDerivAt_pow 7 y).div_const 5040))
    convert h using 1
    push_cast
    ring
  · intro y hy
    exact sub_nonneg.mpr (cos_ge_p6 y hy)

lemma cos_le_p8 (x : ℝ) (hx : 0 ≤ x) :
    Real.cos x ≤ 1 - x ^ 2 / 2 + x ^ 4 / 24 - x ^ 6 / 720 + x ^ 8 / 40320 := by
  have key := nonneg_of_hasDeriv
      (fun y => 1 - y ^ 2 / 2 + y ^ 4 / 24 - y ^ 6 / 720 + y ^ 8 / 40320 - Real.cos y)
      (fun y => Real.sin y - (y - y ^ 3 / 6 + y ^ 5 / 120 - y ^ 7 / 5040)) ?_
      (by norm_num) ?_ x hx
  · linarith
  · intro y
    have h := (((((hasDerivAt_const y (1 : ℝ)).sub ((hasDerivAt_pow 2 y).div_const 2)).add
      ((hasDerivAt_pow 4 y).div_const 24)).sub ((hasDerivAt_pow 6 y).div_const 720)).add
      ((hasDerivAt_pow 8 y).div_const 40320)).sub (Real.hasDerivAt_cos y)
    convert h using 1
    push_cast
    ring
  · intro y hy
    exact sub_nonneg.mpr (sin_ge_p7 y hy)

lemma sin_le_p9 (x : ℝ) (hx : 0 ≤ x) :
    Real.sin x ≤ x - x ^ 3 / 6 + x ^ 5 / 120 - x ^ 7 / 5040 + x ^ 9 / 362880 := by
  have key := nonneg_of_hasDeriv
      (fun y => y - y ^ 3 / 6 + y ^ 5 / 120 - y ^ 7 / 5040 + y ^ 9 / 362880 - Real.sin y)
      (fun y => 1 - y ^ 2 / 2 + y ^ 4 / 24 - y ^ 6 / 720 + y ^ 8 / 40320 - Real.cos y) ?_
      (by norm_num) ?_ x hx
  · linarith
  · intro y
    have h := (((((hasDerivAt_id y).sub ((hasDerivAt_pow 3 y).div_const 6)).add
      ((hasDerivAt_pow 5 y).div_const 120)).sub ((hasDerivAt_pow 7 y).div_const 5040)).add
      ((hasDerivAt_pow 9 y).div_const 362880)).sub (Real.hasDerivAt_sin y)
    convert h using 1
    push_cast
    ring
  · intro y hy
    exact sub_nonneg.mpr (cos_le_p8 y hy)

lemma cos_ge_p10 (x : ℝ) (hx : 0 ≤ x) :
    1 - x ^ 2 / 2 + x ^ 4 / 24 - x ^ 6 / 720 + x ^ 8 / 40320 - x ^ 10 / 3628800
      ≤ Real.cos x := by
  have key := nonneg_of_hasDeriv
      (fun y => Real.cos y
        - (1 - y ^ 2 / 2 + y ^ 4 / 24 - y ^ 6 / 720 + y ^ 8 / 40320 - y ^ 10 / 3628800))
      (fun y => y - y ^ 3 / 6 + y ^ 5 / 120 - y ^ 7 / 5040 + y ^ 9 / 362880 - Real.sin y)
      ?_ (by norm_num) ?_ x hx
  · linarith
  · intro y
    have h := (Real.hasDerivAt_cos y).sub
      ((((((hasDerivAt_const y (1 : ℝ)).sub ((hasDerivAt_pow 2 y).div_const 2)).add
        ((hasDerivAt_pow 4 y).div_const 24)).sub ((hasDerivAt_pow 6 y).div_const 720)).add
        ((hasDerivAt_pow 8 y).div_const 40320)).sub ((hasDerivAt_pow 10 y).div_const 3628800))
    convert h using 1
    push_cast
    ring
  · intro y hy
    exact sub_nonneg.mpr (sin_le_p9 y hy)

lemma arctan_ge_p11 (x : ℝ) (hx : 0 ≤ x) :
    x - x ^ 3 / 3 + x ^ 5 / 5 - x ^ 7 / 7 + x ^ 9 / 9 - x ^ 11 / 11 ≤ Real.arctan x := by
  have key := nonneg_of_hasDeriv
      (fun y => Real.arctan y - (y - y ^ 3 / 3 + y ^ 5 / 5 - y ^ 7 / 7 + y ^ 9 / 9 - y ^ 11 / 11))
      (fun y => 1 / (1 + y ^ 2)
        - (1 - y ^ 2 + y ^ 4 - y ^ 6 + y ^ 8 - y ^ 10)) ?_ (by norm_num [Real.arctan_zero]) ?_ x hx
  · linarith
  · intro y
    have h := (Real.hasDerivAt_arctan y).sub
      ((((((hasDerivAt_id y).sub ((hasDerivAt_pow 3 y).div_const 3)).add
        ((hasDerivAt_pow 5 y).div_const 5)).sub ((hasDerivAt_pow 7 y).div_const 7)).add
        ((hasDerivAt_pow 9 y).div_const 9)).sub ((hasDerivAt_pow 11 y).div_const 11))
    convert h using 1
    push_cast
    ring
  · intro y _
    have hden : (0 : ℝ) < 1 + y ^ 2 := by positivity
    have he : 1 / (1 + y ^ 2) - (1 - y ^ 2 + y ^ 4 - y ^ 6 + y ^ 8 - y ^ 10)
        = y ^ 12 / (1 + y ^ 2) := by
      field_simp
      ring
    show 0 ≤ 1 / (1 + y ^ 2) - (1 - y ^ 2 + y ^ 4 - y ^ 6 + y ^ 8 - y ^ 10)
    rw [he]
    positivity

lemma arctan_le_p13 (x : ℝ) (hx : 0 ≤ x) :
    Real.arctan x
      ≤ x - x ^ 3 / 3 + x ^ 5 / 5 - x ^ 7 / 7 + x ^ 9 / 9 - x ^ 11 / 11 + x ^ 13 / 13 := by
  have key := nonneg_of_hasDeriv
      (fun y => (y - y ^ 3 / 3 + y ^ 5 / 5 - y ^ 7 / 7 + y ^ 9 / 9 - y ^ 11 / 11 + y ^ 13 / 13)
        - Real.arctan y)
      (fun y => (1 - y ^ 2 + y ^ 4 - y ^ 6 + y ^ 8 - y ^ 10 + y ^ 12)
        - 1 / (1 + y ^ 2)) ?_ (by norm_num [Real.arctan_zero]) ?_ x hx
  · linarith
  · intro y
    have hpoly := (((((hasDerivAt_id y).sub ((hasDerivAt_pow 3 y).div_const 3)).add
      ((hasDerivAt_pow 5 y).div_const 5)).sub ((hasDerivAt_pow 7 y).div_const 7)).add
      ((hasDerivAt_pow 9 y).div_const 9)).sub ((hasDerivAt_pow 11 y).div_const 11)
    have h := (hpoly.add ((hasDerivAt_pow 13 y).div_const 13)).sub (Real.hasDerivAt_arctan y)
    convert h using 1
    push_cast
    ring
  · intro y _
    have hden : (0 : ℝ) < 1 + y ^ 2 := by positivity
    have he : (1 - y ^ 2 + y ^ 4 - y ^ 6 + y ^ 8 - y ^ 10 + y ^ 12) - 1 / (1 + y ^ 2)
        = y ^ 14 / (1 + y ^ 2) := by
      field_simp
      ring
    show 0 ≤ (1 - y ^ 2 + y ^ 4 - y ^ 6 + y ^ 8 - y ^ 10 + y ^ 12) - 1 / (1 + y ^ 2)
    rw [he]
    positivity

lemma exp_sq_half (x : ℝ) : Real.exp x = Real.exp (x / 2) ^ 2 := by
  rw [sq, ← Real.exp_add, add_halves]

/-- Two-sided bound on `exp` at a point with `|x| ≤ a ≤ 1`, via the order-12
Taylor polynomial. -/
lemma exp_bounds12 (x a lo hi : ℝ) (ha : |x| ≤ a) (ha1 : a ≤ 1)
    (hlo : lo ≤ (∑ m ∈ Finset.range 12, x ^ m / (Nat.factorial m : ℝ))
        - a ^ 12 * (13 / 5748019200))
    (hhi : (∑ m ∈ Finset.range 12, x ^ m / (Nat.factorial m : ℝ))
        + a ^ 12 * (13 / 5748019200) ≤ hi) :
    lo ≤ Real.exp x ∧ Real.exp x ≤ hi := by
  have hx1 : |x| ≤ 1 := le_trans ha ha1
  have h := @Real.exp_bound x hx1 12 (by norm_num)
  rw [abs_sub_le_iff] at h
  obtain ⟨h1, h2⟩ := h
  norm_num [Nat.factorial] at h1 h2
  have hpow : |x| ^ 12 ≤ a ^ 12 := pow_le_pow_left₀ (abs_nonneg x) ha 12
  constructor
  · linarith
  · linarith

/-- Certified decimal bounds for `log 5`, derived from `log 2` bounds and the
power series of `log (1 - 1/5)`. -/
lemma log_five_bounds : (1.6094379119 : ℝ) ≤ Real.log 5 ∧ Real.log 5 ≤ 1.609437913 := by
  have h2lo := Real.log_two_gt_d9
  have h2hi := Real.log_two_lt_d9
  have hser := @Real.abs_log_sub_add_sum_range_le (1 / 5) (by rw [abs_of_pos] <;> norm_num) 15
  rw [abs_le] at hser
  have hS : (0.22314355131 : ℝ)
      ≤ ∑ i ∈ Finset.range 15, (1 / 5 : ℝ) ^ (i + 1) / (i + 1) := by
    norm_num [Finset.sum_range_succ]
  have hS' : (∑ i ∈ Finset.range 15, (1 / 5 : ℝ) ^ (i + 1) / (i + 1))
      ≤ 0.22314355132 := by
    norm_num [Finset.sum_range_succ]
  have habs : |(1 / 5 : ℝ)| ^ (15 + 1) / (1 - |(1 / 5 : ℝ)|) ≤ 0.00000000001 := by
    rw [abs_of_pos (by norm_num : (0 : ℝ) < 1 / 5)]
    norm_num
  have hlog45 : Real.log (1 - 1 / 5) = 2 * Real.log 2 - Real.log 5 := by
    have h45 : (1 - 1 / 5 : ℝ) = 4 / 5 := by norm_num
    rw [h45, Real.log_div (by norm_num) (by norm_num),
      show (4 : ℝ) = 2 ^ 2 by norm_num, Real.log_pow]
    push_cast
    ring
  rw [hlog45] at hser
  constructor
  · linarith [hser.1, hser.2]
  · linarith [hser.1, hser.2]

/-- Interval-arithmetic chain: from a rational bracket on `u`, certified
brackets on `arctan`, `exp`, and `√` give a rational bracket on
`overshoot_curve u`. -/
lemma overshoot_curve_bounds (u ulo uhi blo bhi elo ehi slo shi alo ahi : ℝ)
    (hulo : ulo ≤ u) (huhi : u ≤ uhi) (hupos : 0 < ulo)
    (hblo : blo ≤ ulo - ulo ^ 3 / 3 + ulo ^ 5 / 5 - ulo ^ 7 / 7 + ulo ^ 9 / 9 - ulo ^ 11 / 11)
    (hbhi : uhi - uhi ^ 3 / 3 + uhi ^ 5 / 5 - uhi ^ 7 / 7 + uhi ^ 9 / 9 - uhi ^ 11 / 11
        + uhi ^ 13 / 13 ≤ bhi)
    (hbhi_pi : bhi ≤ 3.141592)
    (helo : 0 ≤ elo)
    (hexp_lo : elo ≤ Real.exp (-(uhi * (3.141593 - blo))))
    (hexp_hi : Real.exp (-(ulo * (3.141592 - bhi))) ≤ ehi)
    (hslo : 0 < slo) (hshi : 0 < shi)
    (hslo2 : slo ^ 2 ≤ 1 + ulo ^ 2) (hshi2 : 1 + uhi ^ 2 ≤ shi ^ 2)
    (halo : alo ≤ elo / shi) (hahi : ehi / slo ≤ ahi) :
    alo ≤ overshoot_curve u ∧ overshoot_curve u ≤ ahi := by
  have hπlo : (3.141592 : ℝ) < π := Real.pi_gt_d6
  have hπhi : π < 3.141593 := Real.pi_lt_d6
  have hu0 : 0 < u := lt_of_lt_of_le hupos hulo
  have hBlo : blo ≤ Real.arctan u := by
    have h1 := arctan_ge_p11 ulo hupos.le
    have h2 : Real.arctan ulo ≤ Real.arctan u := Real.arctan_strictMono.monotone hulo
    linarith
  have hBhi : Real.arctan u ≤ bhi := by
    have h1 := arctan_le_p13 uhi (by linarith)
    have h2 : Real.arctan u ≤ Real.arctan uhi := Real.arctan_strictMono.monotone huhi
    linarith
  clear hblo hbhi
  have hX_lo : -(uhi * (3.141593 - blo)) ≤ -u * (π - Real.arctan u) := by
    nlinarith [hBlo, hBhi, hπhi, hu0, huhi, hbhi_pi]
  have hX_hi : -u * (π - Real.arctan u) ≤ -(ulo * (3.141592 - bhi)) := by
    nlinarith [hBlo, hBhi, hπlo, hupos, hulo, hbhi_pi]
  have hexp1 : elo ≤ Real.exp (-u * (π - Real.arctan u)) :=
    le_trans hexp_lo (Real.exp_le_exp.mpr hX_lo)
  have hexp2 : Real.exp (-u * (π - Real.arctan u)) ≤ ehi :=
    le_trans (Real.exp_le_exp.mpr hX_hi) hexp_hi
  have hs_lo : slo ≤ Real.sqrt (1 + u ^ 2) := by
    rw [Real.le_sqrt hslo.le (by positivity)]
    nlinarith
  have hs_hi : Real.sqrt (1 + u ^ 2) ≤ shi := by
    rw [Real.sqrt_le_iff]
    constructor
    · exact hshi.le
    · nlinarith
  have hspos : 0 < Real.sqrt (1 + u ^ 2) := lt_of_lt_of_le hslo hs_lo
  have hcurve : overshoot_curve u
      = Real.exp (-u * (π - Real.arctan u)) / Real.sqrt (1 + u ^ 2) := by
    unfold overshoot_curve
    rw [Real.cos_arctan, mul_one_div]
  rw [hcurve]
  constructor
  · exact le_trans halo
      (div_le_div₀ (Real.exp_pos _).le hexp1 hspos hs_hi)
  · exact le_trans
      (div_le_div₀ (le_trans helo (le_trans hexp1 hexp2)) hexp2 hslo hs_lo) hahi

/-! ## Certified numeric bounds for the round-trip settings `{0.2, 4}` -/

lemma exp_ge_82 : (0.229259358 : ℝ) ≤ Real.exp (-(0.559757226 * (3.141593 - 0.510271281))) := by
  have h := exp_bounds12 (-0.7364506731) 0.7364506731 0.4788103575 0.4788103577
      (by rw [abs_of_neg (by norm_num : (-0.7364506731 : ℝ) < 0)]; norm_num)
      (by norm_num)
      (by norm_num [Finset.sum_range_succ, Nat.factorial])
      (by norm_num [Finset.sum_range_succ, Nat.factorial])
  have hsq : Real.exp (-1.4729013462 : ℝ) = Real.exp (-0.7364506731 : ℝ) ^ 2 := by
    rw [exp_sq_half (-1.4729013462 : ℝ)]
    norm_num
  calc (0.229259358 : ℝ) ≤ 0.4788103575 ^ 2 := by norm_num
    _ ≤ Real.exp (-0.7364506731 : ℝ) ^ 2 := pow_le_pow_left₀ (by norm_num) h.1 2
    _ = Real.exp (-1.4729013462 : ℝ) := hsq.symm
    _ ≤ Real.exp (-(0.559757226 * (3.141593 - 0.510271281))) :=
        Real.exp_le_exp.mpr (by norm_num)

lemma exp_le_82 : Real.exp (-(0.559757047 * (3.141592 - 0.510312161))) ≤ 0.229264842 := by
  have h := exp_bounds12 (-0.7364387162) 0.7364387162 0.4788160826 0.4788160828
      (by rw [abs_of_neg (by norm_num : (-0.7364387162 : ℝ) < 0)]; norm_num)
      (by norm_num)
      (by norm_num [Finset.sum_range_succ, Nat.factorial])
      (by norm_num [Finset.sum_range_succ, Nat.factorial])
  have hsq : Real.exp (-1.4728774324 : ℝ) = Real.exp (-0.7364387162 : ℝ) ^ 2 := by
    rw [exp_sq_half (-1.4728774324 : ℝ)]
    norm_num
  calc Real.exp (-(0.559757047 * (3.141592 - 0.510312161)))
      ≤ Real.exp (-1.4728774324 : ℝ) := Real.exp_le_exp.mpr (by norm_num)
    _ = Real.exp (-0.7364387162 : ℝ) ^ 2 := hsq
    _ ≤ 0.4788160828 ^ 2 := pow_le_pow_left₀ (Real.exp_pos _).le h.2 2
    _ ≤ 0.229264842 := by norm_num

lemma exp_ge_83 : (0.228966955 : ℝ) ≤ Real.exp (-(0.560335972 * (3.141593 - 0.510711423))) := by
  have h := exp_bounds12 (-0.7370887929) 0.7370887929 0.4785049165 0.4785049168
      (by rw [abs_of_neg (by norm_num : (-0.7370887929 : ℝ) < 0)]; norm_num)
      (by norm_num)
      (by norm_num [Finset.sum_range_succ, Nat.factorial])
      (by norm_num [Finset.sum_range_succ, Nat.factorial])
  have hsq : Real.exp (-1.4741775858 : ℝ) = Real.exp (-0.7370887929 : ℝ) ^ 2 := by
    rw [exp_sq_half (-1.4741775858 : ℝ)]
    norm_num
  calc (0.228966955 : ℝ) ≤ 0.4785049165 ^ 2 := by norm_num
    _ ≤ Real.exp (-0.7370887929 : ℝ) ^ 2 := pow_le_pow_left₀ (by norm_num) h.1 2
    _ = Real.exp (-1.4741775858 : ℝ) := hsq.symm
    _ ≤ Real.exp (-(0.560335972 * (3.141593 - 0.510711423))) :=
        Real.exp_le_exp.mpr (by norm_num)

lemma exp_le_83 : Real.exp (-(0.560335792 * (3.141592 - 0.510752855))) ≤ 0.228972508 := by
  have h := exp_bounds12 (-0.7370766679) 0.7370766679 0.4785107185 0.4785107187
      (by rw [abs_of_neg (by norm_num : (-0.7370766679 : ℝ) < 0)]; norm_num)
      (by norm_num)
      (by norm_num [Finset.sum_range_succ, Nat.factorial])
      (by norm_num [Finset.sum_range_succ, Nat.factorial])
  have hsq : Real.exp (-1.4741533358 : ℝ) = Real.exp (-0.7370766679 : ℝ) ^ 2 := by
    rw [exp_sq_half (-1.4741533358 : ℝ)]
    norm_num
  calc Real.exp (-(0.560335792 * (3.141592 - 0.510752855)))
      ≤ Real.exp (-1.4741533358 : ℝ) := Real.exp_le_exp.mpr (by norm_num)
    _ = Real.exp (-0.7370766679 : ℝ) ^ 2 := hsq
    _ ≤ 0.4785107187 ^ 2 := pow_le_pow_left₀ (Real.exp_pos _).le h.2 2
    _ ≤ 0.228972508 := by norm_num

lemma u82_bounds :
    (0.559757047 : ℝ) ≤ (5.5 * Real.log 5 + 0.82) / (5.5 * π)
    ∧ (5.5 * Real.log 5 + 0.82) / (5.5 * π) ≤ 0.559757226 := by
  have h5 := log_five_bounds
  have hπlo : (3.141592 : ℝ) < π := Real.pi_gt_d6
  have hπhi : π < 3.141593 := Real.pi_lt_d6
  constructor
  · calc (0.559757047 : ℝ) ≤ (5.5 * 1.6094379119 + 0.82) / (5.5 * 3.141593) := by norm_num
      _ ≤ (5.5 * Real.log 5 + 0.82) / (5.5 * π) :=
          div_le_div₀ (by nlinarith [h5.1]) (by nlinarith [h5.1]) (by nlinarith) (by nlinarith)
  · calc (5.5 * Real.log 5 + 0.82) / (5.5 * π)
        ≤ (5.5 * 1.609437913 + 0.82) / (5.5 * 3.141592) :=
          div_le_div₀ (by norm_num) (by nlinarith [h5.2]) (by norm_num) (by nlinarith)
      _ ≤ 0.559757226 := by norm_num

lemma u83_bounds :
    (0.560335792 : ℝ) ≤ (5.5 * Real.log 5 + 0.83) / (5.5 * π)
    ∧ (5.5 * Real.log 5 + 0.83) / (5.5 * π) ≤ 0.560335972 := by
  have h5 := log_five_bounds
  have hπlo : (3.141592 : ℝ) < π := Real.pi_gt_d6
  have hπhi : π < 3.141593 := Real.pi_lt_d6
  constructor
  · calc (0.560335792 : ℝ) ≤ (5.5 * 1.6094379119 + 0.83) / (5.5 * 3.141593) := by norm_num
      _ ≤ (5.5 * Real.log 5 + 0.83) / (5.5 * π) :=
          div_le_div₀ (by nlinarith [h5.1]) (by nlinarith [h5.1]) (by nlinarith) (by nlinarith)
  · calc (5.5 * Real.log 5 + 0.83) / (5.5 * π)
        ≤ (5.5 * 1.609437913 + 0.83) / (5.5 * 3.141592) :=
          div_le_div₀ (by norm_num) (by nlinarith [h5.2]) (by norm_num) (by nlinarith)
      _ ≤ 0.560335972 := by norm_num

lemma a82_bounds :
    (0.20005087 : ℝ) ≤ overshoot_curve ((5.5 * Real.log 5 + 0.82) / (5.5 * π))
    ∧ overshoot_curve ((5.5 * Real.log 5 + 0.82) / (5.5 * π)) ≤ 0.200055671 :=
  overshoot_curve_bounds ((5.5 * Real.log 5 + 0.82) / (5.5 * π))
    0.559757047 0.559757226 0.510271281 0.510312161 0.229259358 0.229264842
    1.146005214 1.146005302 0.20005087 0.200055671
    u82_bounds.1 u82_bounds.2 (by norm_num) (by norm_num) (by norm_num) (by norm_num)
    (by norm_num) exp_ge_82 exp_le_82 (by norm_num) (by norm_num) (by norm_num)
    (by norm_num) (by norm_num) (by norm_num)

lemma a83_bounds :
    (0.199746429 : ℝ) ≤ overshoot_curve ((5.5 * Real.log 5 + 0.83) / (5.5 * π))
    ∧ overshoot_curve ((5.5 * Real.log 5 + 0.83) / (5.5 * π)) ≤ 0.19975129 :=
  overshoot_curve_bounds ((5.5 * Real.log 5 + 0.83) / (5.5 * π))
    0.560335792 0.560335972 0.510711423 0.510752855 0.228966955 0.228972508
    1.146288009 1.146288098 0.199746429 0.19975129
    u83_bounds.1 u83_bounds.2 (by norm_num) (by norm_num) (by norm_num) (by norm_num)
    (by norm_num) exp_ge_83 exp_le_83 (by norm_num) (by norm_num) (by norm_num)
    (by norm_num) (by norm_num) (by norm_num)

lemma omega_c1 : calculate_omega ⟨0.2, 4⟩ = 5.5 * π := by
  show 2 * π * ((4 : ℝ) / 2 + 0.75) = 5.5 * π
  ring_nf

lemma seed_c1 : seed_gamma 0.2 (5.5 * π) = 5.5 * Real.log 5 := by
  unfold seed_gamma
  rw [show (0.2 : ℝ) = 5⁻¹ by norm_num, Real.log_inv]
  have hπ : π ≠ 0 := Real.pi_ne_zero
  field_simp
  ring

/-- The damping search for `{overshoot: 0.2, restPositionRuns: 4}` accepts
exactly 82 steps and stops, returning `gamma = 5.5·ln 5 + 0.82`. -/
lemma search_c1 :
    calculate_gamma ⟨0.2, 4⟩ (calculate_omega ⟨0.2, 4⟩) 83
      = some (5.5 * Real.log 5 + 0.82) := by
  have hωpos : (0 : ℝ) < 5.5 * π := by positivity
  have h5 := log_five_bounds
  have hsign : search_sign 0.2 (5.5 * π) = 1 :=
    search_sign_eq_one _ _ (by norm_num) (by norm_num) hωpos
  have hγpos : ∀ c : ℝ, 0 ≤ c → 0 < 5.5 * Real.log 5 + c := by
    intro c hc
    nlinarith [h5.1]
  have hdev : ∀ x : ℝ, 0 < x →
      deviation_at 0.2 (5.5 * π) x = |0.2 - overshoot_curve (x / (5.5 * π))| := by
    intro x hx
    unfold deviation_at
    rw [achieved_overshoot_eq _ _ hωpos hx]
  have hmono : ∀ x y : ℝ, 0 < x → x ≤ y →
      overshoot_curve (y / (5.5 * π)) ≤ overshoot_curve (x / (5.5 * π)) := by
    intro x y _ hxy
    exact overshoot_curve_strictAnti.antitone ((div_le_div_iff_of_pos_right hωpos).mpr hxy)
  have hmono_strict : ∀ x y : ℝ, 0 < x → x < y →
      overshoot_curve (y / (5.5 * π)) < overshoot_curve (x / (5.5 * π)) := by
    intro x y _ hxy
    exact overshoot_curve_strictAnti ((div_lt_div_iff_of_pos_right hωpos).mpr hxy)
  have himp : ∀ i : ℕ, i < 82 →
      deviation_at 0.2 (5.5 * π) (5.5 * Real.log 5 + 1 * 0.01 * (i + 1))
        < deviation_at 0.2 (5.5 * π) (5.5 * Real.log 5 + 1 * 0.01 * i) := by
    intro i hi
    have hcast : (i : ℝ) ≤ 81 := by
      have : i ≤ 81 := by omega
      exact_mod_cast this
    have hca : (0 : ℝ) ≤ (i : ℝ) := Nat.cast_nonneg i
    have hpos_i : 0 < 5.5 * Real.log 5 + 1 * 0.01 * (i : ℝ) := hγpos _ (by nlinarith)
    have hpos_i1 : 0 < 5.5 * Real.log 5 + 1 * 0.01 * ((i : ℝ) + 1) := hγpos _ (by nlinarith)
    rw [hdev _ hpos_i, hdev _ hpos_i1]
    -- both gammas are ≤ the 82nd gamma, so both achieved values exceed 0.2
    have hle82 : 5.5 * Real.log 5 + 1 * 0.01 * ((i : ℝ) + 1) ≤ 5.5 * Real.log 5 + 0.82 := by
      nlinarith
    have ha_i1 : overshoot_curve ((5.5 * Real.log 5 + 0.82) / (5.5 * π))
        ≤ overshoot_curve ((5.5 * Real.log 5 + 1 * 0.01 * ((i : ℝ) + 1)) / (5.5 * π)) :=
      hmono _ _ hpos_i1 hle82
    have ha_i : overshoot_curve ((5.5 * Real.log 5 + 1 * 0.01 * ((i : ℝ) + 1)) / (5.5 * π))
        < overshoot_curve ((5.5 * Real.log 5 + 1 * 0.01 * (i : ℝ)) / (5.5 * π)) :=
      hmono_strict _ _ hpos_i (by nlinarith)
    have h82 := a82_bounds.1
    rw [abs_of_neg (by nlinarith), abs_of_neg (by nlinarith)]
    nlinarith
  have hstop : ¬ deviation_at 0.2 (5.5 * π) (5.5 * Real.log 5 + 1 * 0.01 * ((82 : ℕ) + 1))
      < deviation_at 0.2 (5.5 * π) (5.5 * Real.log 5 + 1 * 0.01 * ((82 : ℕ) : ℝ)) := by
    have he83 : 5.5 * Real.log 5 + 1 * 0.01 * (((82 : ℕ) : ℝ) + 1)
        = 5.5 * Real.log 5 + 0.83 := by
      push_cast
      ring
    have he82 : 5.5 * Real.log 5 + 1 * 0.01 * ((82 : ℕ) : ℝ)
        = 5.5 * Real.log 5 + 0.82 := by
      push_cast
      ring
    rw [he83, he82, hdev _ (hγpos _ (by norm_num)), hdev _ (hγpos _ (by norm_num))]
    have h82 := a82_bounds
    have h83 := a83_bounds
    rw [not_lt]
    have hneg82 : (0.2 : ℝ) - overshoot_curve ((5.5 * Real.log 5 + 0.82) / (5.5 * π)) < 0 := by
      nlinarith [h82.1]
    rw [abs_of_neg hneg82]
    have habs : (0.2 : ℝ) - overshoot_curve ((5.5 * Real.log 5 + 0.83) / (5.5 * π))
        ≤ |0.2 - overshoot_curve ((5.5 * Real.log 5 + 0.83) / (5.5 * π))| :=
      le_abs_self _
    linarith [h82.2, h83.2, habs]
  show gamma_loop 0.2 (calculate_omega ⟨0.2, 4⟩) (search_sign 0.2 (calculate_omega ⟨0.2, 4⟩))
      83 (seed_gamma 0.2 (calculate_omega ⟨0.2, 4⟩))
      (deviation_at 0.2 (calculate_omega ⟨0.2, 4⟩) (seed_gamma 0.2 (calculate_omega ⟨0.2, 4⟩)))
    = some (5.5 * Real.log 5 + 0.82)
  rw [omega_c1, hsign, seed_c1]
  have hrun := gamma_loop_runs_to 0.2 (5.5 * π) 1 82 (5.5 * Real.log 5) hstop himp
  rw [show (82 : ℕ) + 1 = 83 from rfl] at hrun
  rw [hrun]
  congr 1
  push_cast
  ring

/-! ## The round-trip test samples for `{0.2, 4}` -/

/-- The params derived by `calculate_params` for the test settings `{0.2, 4}`. -/
noncomputable def c1_params : InterpolatorParams :=
  ⟨calculate_omega ⟨0.2, 4⟩, 5.5 * Real.log 5 + 0.82⟩

/-- The normalized sample `interpolation - 1` of the self-test at time `i/100`. -/
noncomputable def c1_sample (i : ℕ) : ℝ :=
  calculate_interpolation c1_params (i / 100) - 1

lemma c1_sample_eq (i : ℕ) :
    c1_sample i
      = -(Real.exp (-(5.5 * Real.log 5 + 0.82) * (i / 100))
          * Real.cos (π * (11 * i / 200))) := by
  show 1 - Real.exp (-(5.5 * Real.log 5 + 0.82) * ((i : ℝ) / 100))
      * Real.cos (calculate_omega ⟨0.2, 4⟩ * ((i : ℝ) / 100)) - 1 = _
  have harg : calculate_omega ⟨0.2, 4⟩ * ((i : ℝ) / 100) = π * (11 * i / 200) := by
    rw [omega_c1]
    ring
  rw [harg]
  ring

lemma cos_pi_mul_pos (q : ℝ) (k : ℤ) (h : |q - 2 * k| < 1 / 2) : 0 < Real.cos (π * q) := by
  have hper : Real.cos (π * q) = Real.cos (π * (q - 2 * k)) := by
    have harg : π * q = π * (q - 2 * k) + k * (2 * π) := by ring
    rw [harg, Real.cos_add_int_mul_two_pi]
  rw [hper]
  rw [abs_lt] at h
  apply Real.cos_pos_of_mem_Ioo
  constructor
  · have := Real.pi_pos
    nlinarith [h.1]
  · have := Real.pi_pos
    nlinarith [h.2]

lemma cos_pi_mul_neg (q : ℝ) (k : ℤ) (h : |q - (2 * k + 1)| < 1 / 2) :
    Real.cos (π * q) < 0 := by
  have hper : Real.cos (π * q) = Real.cos (π * (q - 2 * k)) := by
    have harg : π * q = π * (q - 2 * k) + k * (2 * π) := by ring
    rw [harg, Real.cos_add_int_mul_two_pi]
  rw [hper]
  rw [abs_lt] at h
  apply Real.cos_neg_of_pi_div_two_lt_of_lt
  · have := Real.pi_pos
    nlinarith [h.1]
  · have := Real.pi_pos
    nlinarith [h.2]

lemma c1_cos_pos (i : ℕ)
    (h : i ≤ 9 ∨ 28 ≤ i ∧ i ≤ 45 ∨ 64 ≤ i ∧ i ≤ 81) :
    0 < Real.cos (π * (11 * i / 200)) := by
  have hc0 : (0 : ℝ) ≤ (i : ℝ) := Nat.cast_nonneg i
  rcases h with h | ⟨h1, h2⟩ | ⟨h1, h2⟩
  · apply cos_pi_mul_pos _ 0
    have hc : (i : ℝ) ≤ 9 := by exact_mod_cast h
    rw [abs_lt]
    push_cast
    constructor <;> nlinarith
  · apply cos_pi_mul_pos _ 1
    have hc1 : (28 : ℝ) ≤ (i : ℝ) := by exact_mod_cast h1
    have hc2 : (i : ℝ) ≤ 45 := by exact_mod_cast h2
    rw [abs_lt]
    push_cast
    constructor <;> nlinarith
  · apply cos_pi_mul_pos _ 2
    have hc1 : (64 : ℝ) ≤ (i : ℝ) := by exact_mod_cast h1
    have hc2 : (i : ℝ) ≤ 81 := by exact_mod_cast h2
    rw [abs_lt]
    push_cast
    constructor <;> nlinarith

lemma c1_cos_neg (i : ℕ)
    (h : 10 ≤ i ∧ i ≤ 27 ∨ 46 ≤ i ∧ i ≤ 63 ∨ 82 ≤ i ∧ i ≤ 99) :
    Real.cos (π * (11 * i / 200)) < 0 := by
  rcases h with ⟨h1, h2⟩ | ⟨h1, h2⟩ | ⟨h1, h2⟩
  · apply cos_pi_mul_neg _ 0
    have hc1 : (10 : ℝ) ≤ (i : ℝ) := by exact_mod_cast h1
    have hc2 : (i : ℝ) ≤ 27 := by exact_mod_cast h2
    rw [abs_lt]
    push_cast
    constructor <;> nlinarith
  · apply cos_pi_mul_neg _ 1
    have hc1 : (46 : ℝ) ≤ (i : ℝ) := by exact_mod_cast h1
    have hc2 : (i : ℝ) ≤ 63 := by exact_mod_cast h2
    rw [abs_lt]
    push_cast
    constructor <;> nlinarith
  · apply cos_pi_mul_neg _ 2
    have hc1 : (82 : ℝ) ≤ (i : ℝ) := by exact_mod_cast h1
    have hc2 : (i : ℝ) ≤ 99 := by exact_mod_cast h2
    rw [abs_lt]
    push_cast
    constructor <;> nlinarith

lemma c1_prod_neg (i : ℕ)
    (h : 0 < Real.cos (π * (11 * i / 200)) ∧ Real.cos (π * (11 * (i + 1) / 200)) < 0
       ∨ Real.cos (π * (11 * i / 200)) < 0 ∧ 0 < Real.cos (π * (11 * (i + 1) / 200))) :
    c1_sample i * c1_sample (i + 1) < 0 := by
  rw [c1_sample_eq, c1_sample_eq]
  push_cast
  have e1 : 0 < Real.exp (-(5.5 * Real.log 5 + 0.82) * (i / 100)) := Real.exp_pos _
  have e2 : 0 < Real.exp (-(5.5 * Real.log 5 + 0.82) * (((i : ℝ) + 1) / 100)) := Real.exp_pos _
  have hring : -(Real.exp (-(5.5 * Real.log 5 + 0.82) * (i / 100))
        * Real.cos (π * (11 * i / 200)))
      * -(Real.exp (-(5.5 * Real.log 5 + 0.82) * (((i : ℝ) + 1) / 100))
        * Real.cos (π * (11 * ((i : ℝ) + 1) / 200)))
      = (Real.exp (-(5.5 * Real.log 5 + 0.82) * (i / 100))
          * Real.exp (-(5.5 * Real.log 5 + 0.82) * (((i : ℝ) + 1) / 100)))
        * (Real.cos (π * (11 * i / 200)) * Real.cos (π * (11 * ((i : ℝ) + 1) / 200))) := by
    ring
  rw [hring]
  apply mul_neg_of_pos_of_neg (mul_pos e1 e2)
  rcases h with ⟨h1, h2⟩ | ⟨h1, h2⟩
  · exact mul_neg_of_pos_of_neg h1 h2
  · exact mul_neg_of_neg_of_pos h1 h2

lemma c1_prod_pos (i : ℕ)
    (h : 0 < Real.cos (π * (11 * i / 200)) ∧ 0 < Real.cos (π * (11 * (i + 1) / 200))
       ∨ Real.cos (π * (11 * i / 200)) < 0 ∧ Real.cos (π * (11 * (i + 1) / 200)) < 0) :
    0 < c1_sample i * c1_sample (i + 1) := by
  rw [c1_sample_eq, c1_sample_eq]
  push_cast
  have e1 : 0 < Real.exp (-(5.5 * Real.log 5 + 0.82) * (i / 100)) := Real.exp_pos _
  have e2 : 0 < Real.exp (-(5.5 * Real.log 5 + 0.82) * (((i : ℝ) + 1) / 100)) := Real.exp_pos _
  have hring : -(Real.exp (-(5.5 * Real.log 5 + 0.82) * (i / 100))
        * Real.cos (π * (11 * i / 200)))
      * -(Real.exp (-(5.5 * Real.log 5 + 0.82) * (((i : ℝ) + 1) / 100))
        * Real.cos (π * (11 * ((i : ℝ) + 1) / 200)))
      = (Real.exp (-(5.5 * Real.log 5 + 0.82) * (i / 100))
          * Real.exp (-(5.5 * Real.log 5 + 0.82) * (((i : ℝ) + 1) / 100)))
        * (Real.cos (π * (11 * i / 200)) * Real.cos (π * (11 * ((i : ℝ) + 1) / 200))) := by
    ring
  rw [hring]
  apply mul_pos (mul_pos e1 e2)
  rcases h with ⟨h1, h2⟩ | ⟨h1, h2⟩
  · exact mul_pos h1 h2
  · exact mul_pos_of_neg_of_neg h1 h2

/-- The sampled curve for `{0.2, 4}` changes sign exactly at the five sample
pairs `(9,10), (27,28), (45,46), (63,64), (81,82)`. -/
lemma c1_filter_eq :
    (Finset.range 99).filter (fun i => c1_sample i * c1_sample (i + 1) < 0)
      = {9, 27, 45, 63, 81} := by
  apply Finset.ext
  intro i
  simp only [Finset.mem_filter, Finset.mem_range, Finset.mem_insert, Finset.mem_singleton]
  constructor
  · rintro ⟨hi, hprod⟩
    by_contra hnot
    push_neg at hnot
    obtain ⟨n9, n27, n45, n63, n81⟩ := hnot
    have hpos : 0 < c1_sample i * c1_sample (i + 1) := by
      have hcases : i ≤ 8 ∨ 10 ≤ i ∧ i ≤ 26 ∨ 28 ≤ i ∧ i ≤ 44 ∨ 46 ≤ i ∧ i ≤ 62
          ∨ 64 ≤ i ∧ i ≤ 80 ∨ 82 ≤ i ∧ i ≤ 98 := by omega
      rcases hcases with h | h | h | h | h | h
      · have h1 := c1_cos_pos i (Or.inl (by omega))
        have h2 := c1_cos_pos (i + 1) (Or.inl (by omega))
        push_cast at h2
        exact c1_prod_pos i (Or.inl ⟨h1, h2⟩)
      · have h1 := c1_cos_neg i (Or.inl ⟨by omega, by omega⟩)
        have h2 := c1_cos_neg (i + 1) (Or.inl ⟨by omega, by omega⟩)
        push_cast at h2
        exact c1_prod_pos i (Or.inr ⟨h1, h2⟩)
      · have h1 := c1_cos_pos i (Or.inr (Or.inl ⟨by omega, by omega⟩))
        have h2 := c1_cos_pos (i + 1) (Or.inr (Or.inl ⟨by omega, by omega⟩))
        push_cast at h2
        exact c1_prod_pos i (Or.inl ⟨h1, h2⟩)
      · have h1 := c1_cos_neg i (Or.inr (Or.inl ⟨by omega, by omega⟩))
        have h2 := c1_cos_neg (i + 1) (Or.inr (Or.inl ⟨by omega, by omega⟩))
        push_cast at h2
        exact c1_prod_pos i (Or.inr ⟨h1, h2⟩)
      · have h1 := c1_cos_pos i (Or.inr (Or.inr ⟨by omega, by omega⟩))
        have h2 := c1_cos_pos (i + 1) (Or.inr (Or.inr ⟨by omega, by omega⟩))
        push_cast at h2
        exact c1_prod_pos i (Or.inl ⟨h1, h2⟩)
      · have h1 := c1_cos_neg i (Or.inr (Or.inr ⟨by omega, by omega⟩))
        have h2 := c1_cos_neg (i + 1) (Or.inr (Or.inr ⟨by omega, by omega⟩))
        push_cast at h2
        exact c1_prod_pos i (Or.inr ⟨h1, h2⟩)
    linarith
  · intro hmem
    rcases hmem with h | h | h | h | h
    · subst h
      refine ⟨by norm_num, c1_prod_neg 9 (Or.inl ⟨?_, ?_⟩)⟩
      · exact c1_cos_pos 9 (Or.inl (by norm_num))
      · have h2 := c1_cos_neg 10 (Or.inl (by norm_num))
        push_cast at h2 ⊢
        convert h2 using 4
        norm_num
    · subst h
      refine ⟨by norm_num, c1_prod_neg 27 (Or.inr ⟨?_, ?_⟩)⟩
      · exact c1_cos_neg 27 (Or.inl (by norm_num))
      · have h2 := c1_cos_pos 28 (Or.inr (Or.inl (by norm_num)))
        push_cast at h2 ⊢
        convert h2 using 4
        norm_num
    · subst h
      refine ⟨by norm_num, c1_prod_neg 45 (Or.inl ⟨?_, ?_⟩)⟩
      · exact c1_cos_pos 45 (Or.inr (Or.inl (by norm_num)))
      · have h2 := c1_cos_neg 46 (Or.inr (Or.inl (by norm_num)))
        push_cast at h2 ⊢
        convert h2 using 4
        norm_num
    · subst h
      refine ⟨by norm_num, c1_prod_neg 63 (Or.inr ⟨?_, ?_⟩)⟩
      · exact c1_cos_neg 63 (Or.inr (Or.inl (by norm_num)))
      · have h2 := c1_cos_pos 64 (Or.inr (Or.inr (by norm_num)))
        push_cast at h2 ⊢
        convert h2 using 4
        norm_num
    · subst h
      refine ⟨by norm_num, c1_prod_neg 81 (Or.inl ⟨?_, ?_⟩)⟩
      · exact c1_cos_pos 81 (Or.inr (Or.inr (by norm_num)))
      · have h2 := c1_cos_neg 82 (Or.inr (Or.inr (by norm_num)))
        push_cast at h2 ⊢
        convert h2 using 4
        norm_num

lemma c1_exp_pow (i : ℕ) :
    Real.exp (-(5.5 * Real.log 5 + 0.82) * (i / 100))
      = Real.exp (-(5.5 * Real.log 5 + 0.82) / 100) ^ i := by
  rw [← Real.exp_nat_mul]
  congr 1
  ring

lemma c1_abs_eq (i : ℕ) :
    |c1_sample i|
      = Real.exp (-(5.5 * Real.log 5 + 0.82) / 100) ^ i
          * |Real.cos (π * (11 * i / 200))| := by
  rw [c1_sample_eq, abs_neg, abs_mul, abs_of_pos (Real.exp_pos _), c1_exp_pow]

lemma q_bounds :
    (0.907810987 : ℝ) ≤ Real.exp (-(5.5 * Real.log 5 + 0.82) / 100)
    ∧ Real.exp (-(5.5 * Real.log 5 + 0.82) / 100) ≤ 0.907810988 := by
  have h5 := log_five_bounds
  have harg_lo : (-0.096719085215 : ℝ) ≤ -(5.5 * Real.log 5 + 0.82) / 100 := by
    nlinarith [h5.2]
  have harg_hi : -(5.5 * Real.log 5 + 0.82) / 100 ≤ -0.096719085154 := by
    nlinarith [h5.1]
  have h1 := exp_bounds12 (-0.096719085215) 0.096719085215 0.9078109878 0.9078109879
      (by rw [abs_of_neg (by norm_num : (-0.096719085215 : ℝ) < 0)]; norm_num)
      (by norm_num)
      (by norm_num [Finset.sum_range_succ, Nat.factorial])
      (by norm_num [Finset.sum_range_succ, Nat.factorial])
  have h2 := exp_bounds12 (-0.096719085154) 0.096719085154 0.9078109879 0.907810988
      (by rw [abs_of_neg (by norm_num : (-0.096719085154 : ℝ) < 0)]; norm_num)
      (by norm_num)
      (by norm_num [Finset.sum_range_succ, Nat.factorial])
      (by norm_num [Finset.sum_range_succ, Nat.factorial])
  constructor
  · calc (0.907810987 : ℝ) ≤ 0.9078109878 := by norm_num
      _ ≤ Real.exp (-0.096719085215) := h1.1
      _ ≤ Real.exp (-(5.5 * Real.log 5 + 0.82) / 100) := Real.exp_le_exp.mpr harg_lo
  · calc Real.exp (-(5.5 * Real.log 5 + 0.82) / 100)
        ≤ Real.exp (-0.096719085154) := Real.exp_le_exp.mpr harg_hi
      _ ≤ 0.907810988 := h2.2

lemma cos_pi_y_bounds (y clo chi : ℝ) (hy0 : 0 ≤ y) (hy1 : y ≤ 1 / 2)
    (hclo : clo ≤ 1 - (3.141593 * y) ^ 2 / 2 + (3.141593 * y) ^ 4 / 24
        - (3.141593 * y) ^ 6 / 720 + (3.141593 * y) ^ 8 / 40320
        - (3.141593 * y) ^ 10 / 3628800)
    (hchi : 1 - (3.141592 * y) ^ 2 / 2 + (3.141592 * y) ^ 4 / 24
        - (3.141592 * y) ^ 6 / 720 + (3.141592 * y) ^ 8 / 40320 ≤ chi) :
    clo ≤ Real.cos (π * y) ∧ Real.cos (π * y) ≤ chi := by
  have hπlo : (3.141592 : ℝ) < π := Real.pi_gt_d6
  have hπhi : π < 3.141593 := Real.pi_lt_d6
  constructor
  · have hmono : Real.cos (3.141593 * y) ≤ Real.cos (π * y) := by
      apply Real.cos_le_cos_of_nonneg_of_le_pi (by nlinarith) (by nlinarith) (by nlinarith)
    have htay := cos_ge_p10 (3.141593 * y) (by nlinarith)
    linarith
  · have hmono : Real.cos (π * y) ≤ Real.cos (3.141592 * y) := by
      apply Real.cos_le_cos_of_nonneg_of_le_pi (by nlinarith) (by nlinarith) (by nlinarith)
    have htay := cos_le_p8 (3.141592 * y) (by nlinarith)
    linarith

/-- Upper bound on one sample's magnitude, via the cosine reflection
`cos(π x) = -cos(π (1-x))` and the certified `q`/cosine brackets. -/
lemma c1_abs_le_block (i : ℕ) (y clo chi qb : ℝ)
    (hxy : 11 * (i : ℝ) / 200 = 1 - y)
    (hy0 : 0 ≤ y) (hy1 : y ≤ 1 / 2) (hclo0 : 0 < clo)
    (hclo : clo ≤ 1 - (3.141593 * y) ^ 2 / 2 + (3.141593 * y) ^ 4 / 24
        - (3.141593 * y) ^ 6 / 720 + (3.141593 * y) ^ 8 / 40320
        - (3.141593 * y) ^ 10 / 3628800)
    (hchi : 1 - (3.141592 * y) ^ 2 / 2 + (3.141592 * y) ^ 4 / 24
        - (3.141592 * y) ^ 6 / 720 + (3.141592 * y) ^ 8 / 40320 ≤ chi)
    (hqb : (0.907810988 : ℝ) ^ i * chi ≤ qb) :
    |c1_sample i| ≤ qb := by
  have hq := q_bounds
  have hc := cos_pi_y_bounds y clo chi hy0 hy1 hclo hchi
  rw [c1_abs_eq]
  have hπy : π * (11 * (i : ℝ) / 200) = π - π * y := by rw [hxy]; ring
  rw [hπy, Real.cos_pi_sub, abs_neg, abs_of_pos (lt_of_lt_of_le hclo0 hc.1)]
  have hqpow : Real.exp (-(5.5 * Real.log 5 + 0.82) / 100) ^ i ≤ (0.907810988 : ℝ) ^ i :=
    pow_le_pow_left₀ (Real.exp_pos _).le hq.2 i
  calc Real.exp (-(5.5 * Real.log 5 + 0.82) / 100) ^ i * Real.cos (π * y)
      ≤ (0.907810988 : ℝ) ^ i * chi :=
        mul_le_mul hqpow hc.2 (lt_of_lt_of_le hclo0 hc.1).le (by positivity)
    _ ≤ qb := hqb

/-- Lower bound on the peak sample (index 15). -/
lemma c1_abs_ge_15 : (0.19 : ℝ) ≤ |c1_sample 15| := by
  have hq := q_bounds
  have hc := cos_pi_y_bounds 0.175 0.852640132 0.852640225
      (by norm_num) (by norm_num) (by norm_num) (by norm_num)
  rw [c1_abs_eq]
  have hπy : π * (11 * ((15 : ℕ) : ℝ) / 200) = π - π * 0.175 := by
    push_cast
    ring
  rw [hπy, Real.cos_pi_sub, abs_neg, abs_of_pos (lt_of_lt_of_le (by norm_num) hc.1)]
  have hqpow : (0.907810987 : ℝ) ^ 15
      ≤ Real.exp (-(5.5 * Real.log 5 + 0.82) / 100) ^ 15 :=
    pow_le_pow_left₀ (by norm_num) hq.1 15
  calc (0.19 : ℝ) ≤ (0.907810987 : ℝ) ^ 15 * 0.852640132 := by norm_num
    _ ≤ Real.exp (-(5.5 * Real.log 5 + 0.82) / 100) ^ 15 * Real.cos (π * 0.175) :=
        mul_le_mul hqpow hc.1 (by norm_num) (by positivity)

/-- All samples after the first sign change stay below `0.21` in magnitude. -/
lemma c1_abs_le (i : ℕ) (h10 : 10 ≤ i) (h99 : i ≤ 99) : |c1_sample i| ≤ 0.21 := by
  have hq := q_bounds
  by_cases h17 : 17 ≤ i
  · rw [c1_abs_eq]
    have h1 : |Real.cos (π * (11 * (i : ℝ) / 200))| ≤ 1 := Real.abs_cos_le_one _
    have hqpos : (0 : ℝ) < Real.exp (-(5.5 * Real.log 5 + 0.82) / 100) := Real.exp_pos _
    have h2 : Real.exp (-(5.5 * Real.log 5 + 0.82) / 100) ^ i ≤ (0.907810988 : ℝ) ^ i :=
      pow_le_pow_left₀ hqpos.le hq.2 i
    have h3 : (0.907810988 : ℝ) ^ i ≤ (0.907810988 : ℝ) ^ 17 :=
      pow_le_pow_of_le_one (by norm_num) (by norm_num) h17
    have h4 : ((0.907810988 : ℝ)) ^ 17 ≤ 0.21 := by norm_num
    calc Real.exp (-(5.5 * Real.log 5 + 0.82) / 100) ^ i
          * |Real.cos (π * (11 * (i : ℝ) / 200))|
        ≤ Real.exp (-(5.5 * Real.log 5 + 0.82) / 100) ^ i * 1 :=
          mul_le_mul_of_nonneg_left h1 (pow_nonneg hqpos.le i)
      _ = Real.exp (-(5.5 * Real.log 5 + 0.82) / 100) ^ i := mul_one _
      _ ≤ 0.21 := by linarith
  · have hi : i = 10 ∨ i = 11 ∨ i = 12 ∨ i = 13 ∨ i = 14 ∨ i = 15 ∨ i = 16 := by omega
    rcases hi with h | h | h | h | h | h | h <;> subst h
    · exact c1_abs_le_block 10 0.45 0.156434179 0.156443412 0.21
        (by push_cast; norm_num) (by norm_num) (by norm_num) (by norm_num)
        (by norm_num) (by norm_num) (by norm_num)
    · exact c1_abs_le_block 11 0.395 0.323917261 0.323920022 0.21
        (by push_cast; norm_num) (by norm_num) (by norm_num) (by norm_num)
        (by norm_num) (by norm_num) (by norm_num)
    · exact c1_abs_le_block 12 0.34 0.481753566 0.481754398 0.21
        (by push_cast; norm_num) (by norm_num) (by norm_num) (by norm_num)
        (by norm_num) (by norm_num) (by norm_num)
    · exact c1_abs_le_block 13 0.285 0.625242578 0.625242893 0.21
        (by push_cast; norm_num) (by norm_num) (by norm_num) (by norm_num)
        (by norm_num) (by norm_num) (by norm_num)
    · exact c1_abs_le_block 14 0.23 0.750111016 0.75011118 0.21
        (by push_cast; norm_num) (by norm_num) (by norm_num) (by norm_num)
        (by norm_num) (by norm_num) (by norm_num)
    · exact c1_abs_le_block 15 0.175 0.852640132 0.852640225 0.21
        (by push_cast; norm_num) (by norm_num) (by norm_num) (by norm_num)
        (by norm_num) (by norm_num) (by norm_num)
    · exact c1_abs_le_block 16 0.12 0.92977647 0.929776515 0.21
        (by push_cast; norm_num) (by norm_num) (by norm_num) (by norm_num)
        (by norm_num) (by norm_num) (by norm_num)

/-- C1: for the settings `{restPositionRuns: 4, overshoot: 0.2}`,
`calculate_params` terminates (fuel 83 suffices), and sampling the curve at the
100 uniform times `t = i/100`, `i = 0..99`: the sign of `(value − 1)` changes
exactly at the five consecutive-sample pairs `(9,10), (27,28), (45,46), (63,64),
(81,82)` — one change out of the initial trough and exactly 4 changes after it —
and the maximum of `|value − 1|` over the samples after the first sign change
(`i = 10..99`) is within `0.01` of the requested overshoot `0.2`. -/
theorem round_trip_c1 :
    ∃ (fuel : ℕ) (p : InterpolatorParams),
      calculate_params ⟨0.2, 4⟩ fuel = some p
      ∧ ((Finset.range 99).filter fun i : ℕ =>
            (calculate_interpolation p ((i : ℝ) / 100) - 1)
              * (calculate_interpolation p (((i + 1 : ℕ) : ℝ) / 100) - 1) < 0)
          = {9, 27, 45, 63, 81}
      ∧ (({9, 27, 45, 63, 81} : Finset ℕ).filter fun i => 9 < i).card = 4
      ∧ ∃ M : ℝ,
          (∀ i ∈ Finset.Icc (10 : ℕ) 99,
            |calculate_interpolation p ((i : ℝ) / 100) - 1| ≤ M)
          ∧ (∃ i ∈ Finset.Icc (10 : ℕ) 99,
            |calculate_interpolation p ((i : ℝ) / 100) - 1| = M)
          ∧ |M - 0.2| ≤ 0.01 := by
  refine ⟨83, c1_params, ?_, ?_, ?_, ?_⟩
  · have hunfold : calculate_params ⟨0.2, 4⟩ 83
        = (calculate_gamma ⟨0.2, 4⟩ (calculate_omega ⟨0.2, 4⟩) 83).map
            fun g => ⟨calculate_omega ⟨0.2, 4⟩, g⟩ := rfl
    rw [hunfold, search_c1]
    rfl
  · exact c1_filter_eq
  · decide
  · obtain ⟨i0, hi0, hmax⟩ :=
      Finset.exists_max_image (Finset.Icc 10 99) (fun i => |c1_sample i|)
        ⟨10, by decide⟩
    refine ⟨|c1_sample i0|, ?_, ⟨i0, hi0, rfl⟩, ?_⟩
    · intro i hi
      exact hmax i hi
    · have hmem := Finset.mem_Icc.mp hi0
      have hub : |c1_sample i0| ≤ 0.21 := c1_abs_le i0 hmem.1 hmem.2
      have hlb : (0.19 : ℝ) ≤ |c1_sample i0| :=
        le_trans c1_abs_ge_15 (hmax 15 (by decide))
      rw [abs_le]
      constructor <;> linarith
